import Mathlib

/-!
# vgpio: a virtual GPIO driver exposed through sysfs

A shallow embedding of `vgpio.c` and theorems about it.

Conventions of the embedding.

* A byte (`char`) is a `Nat`; the code only compares bytes with ASCII
  constants, so no function depends on a bound on them.
* A buffer (`const char *buf`) is a `List Nat`; reading at or past the end of
  the list yields `0`, the terminating NUL that sysfs places at `buf[size]`.
  The C string held by a buffer is therefore its prefix before the first `0`.
  The byte count `size` is a separate argument, as in the source.
* `int` fields are `Int`.  No arithmetic of the driver can leave the `int`
  range, except the narrowing to `char` in `value_show`, which is written
  with an explicit `% 256`.
* `ssize_t` results are `Int`: a negated errno, or the byte count `size`
  converted from `size_t` by `to_ssize`, which is `size` itself below `2 ^ 63`
  (sysfs passes at most a page).
-/

namespace Vgpio

/-! ## Kernel constants -/

/-- Errno `EINVAL` of `include/uapi/asm-generic/errno-base.h`. -/
def EINVAL : Int := 22

/-- Errno `ERANGE` of `include/uapi/asm-generic/errno-base.h`. -/
def ERANGE : Int := 34

/-- Errno `EEXIST` of `include/uapi/asm-generic/errno-base.h`. -/
def EEXIST : Int := 17

/-- Errno `ENOMEM` of `include/uapi/asm-generic/errno-base.h`. -/
def ENOMEM : Int := 12

/-- The flag `GPIO_IRQF_TRIGGER_FALLING`, that is `BIT(0)`. -/
def GPIO_IRQF_TRIGGER_FALLING : Nat := 1 <<< 0

/-- The flag `GPIO_IRQF_TRIGGER_RISING`, that is `BIT(1)`. -/
def GPIO_IRQF_TRIGGER_RISING : Nat := 1 <<< 1

/-- The flag `GPIO_IRQF_TRIGGER_BOTH`, the bitwise or of the two single triggers. -/
def GPIO_IRQF_TRIGGER_BOTH : Nat := GPIO_IRQF_TRIGGER_FALLING ||| GPIO_IRQF_TRIGGER_RISING

/-! ## Buffers and C strings -/

/-- The bytes of a string literal of the source. -/
def lit (s : String) : List Nat := s.toList.map Char.toNat

/-- The byte `s[i]` of a buffer: `0` (the terminating NUL) at or past the end. -/
def at_ (s : List Nat) (i : Nat) : Nat := s.getD i 0

/-- The C string held by a buffer: its bytes before the first NUL. -/
def cstr (s : List Nat) : List Nat := s.takeWhile (fun c => c != 0)

/-- The final test of the kernel's `sysfs_streq` (lib/string.c), once its loop has
stopped at `s1`, `s2`:
`*s1 == *s2`, or `!*s1 && *s2 == '\n' && !s2[1]`, or
`*s1 == '\n' && !s1[1] && !*s2`. -/
def sysfs_streq_end (s1 s2 : List Nat) : Bool :=
  at_ s1 0 == at_ s2 0
    || (at_ s1 0 == 0 && at_ s2 0 == 10 && at_ s2 1 == 0)
    || (at_ s1 0 == 10 && at_ s1 1 == 0 && at_ s2 0 == 0)

/-- The kernel's `sysfs_streq` (lib/string.c): the loop
`while (*s1 && *s1 == *s2) { s1++; s2++; }` followed by the final test. -/
def sysfs_streq : List Nat → List Nat → Bool
  | [], s2 => sysfs_streq_end [] s2
  | c :: s1, s2 =>
    if c != 0 && c == at_ s2 0 then sysfs_streq s1 s2.tail
    else sysfs_streq_end (c :: s1) s2

/-! ## Kernel integer parsing (lib/kstrtox.c, lib/ctype.c)

These routines belong to the kernel, not to the driver.  They are transcribed
from the kernel's definitions so that the driver's stores can be evaluated. -/

deriving instance DecidableEq for Except

/-- The kernel's `isdigit`: an ASCII decimal digit. -/
def isdigit (c : Nat) : Bool := decide (48 ≤ c) && decide (c ≤ 57)

/-- The kernel's `isxdigit`: an ASCII hexadecimal digit. -/
def isxdigit (c : Nat) : Bool :=
  isdigit c || (decide (97 ≤ c) && decide (c ≤ 102)) || (decide (65 ≤ c) && decide (c ≤ 70))

/-- The kernel's `_tolower`: `c | 0x20`. -/
def _tolower (c : Nat) : Nat := c ||| 0x20

/-- The value of a 64-bit pattern read as `long long`. -/
def to_s64 (n : Nat) : Int :=
  if n % 2 ^ 64 < 2 ^ 63 then ((n % 2 ^ 64 : Nat) : Int) else ((n % 2 ^ 64 : Nat) : Int) - 2 ^ 64

/-- The conversion `(int)tmp` of a `long long`: reduction to 32 bits, two's complement. -/
def to_s32 (x : Int) : Int := (x + 2 ^ 31) % 2 ^ 32 - 2 ^ 31

/-- The conversion of a `size_t` to the `ssize_t` a store returns: the 64-bit
pattern read as signed.  It is `size` itself below `2 ^ 63`, and negative from
there on. -/
def to_ssize (size : Nat) : Int := to_s64 size

/-- The kernel's `_parse_integer_fixup_radix`: with `base = 0` the base is chosen
from the prefix (`0x` followed by a hex digit: 16, a leading `0`: 8, else 10);
a `0x` prefix is skipped in base 16.  Returns the advanced string and the base. -/
def _parse_integer_fixup_radix (s : List Nat) (base : Nat) : List Nat × Nat :=
  let base :=
    if base = 0 then
      if at_ s 0 = 48 then
        if _tolower (at_ s 1) = 120 ∧ isxdigit (at_ s 2) = true then 16 else 8
      else 10
    else base
  if base = 16 ∧ at_ s 0 = 48 ∧ _tolower (at_ s 1) = 120 then (s.drop 2, base) else (s, base)

/-- The digit value the loop of `_parse_integer` gives a byte, if any:
`c - '0'` for `'0'..'9'`, `lc - 'a' + 10` for `lc = c | 0x20` in `'a'..'f'`. -/
def digit_val (c : Nat) : Option Nat :=
  if 48 ≤ c ∧ c ≤ 57 then some (c - 48)
  else if 97 ≤ (c ||| 0x20) ∧ (c ||| 0x20) ≤ 102 then some ((c ||| 0x20) - 97 + 10)
  else none

/-- The loop of the kernel's `_parse_integer`, from the state `res`, `rv`, with the
overflow bit `KSTRTOX_OVERFLOW` of `rv` kept as the separate flag `ovf`.  `res` is an
`unsigned long long`, so it is reduced modulo `2 ^ 64`. -/
def _parse_integer_loop (base : Nat) : List Nat → Nat → Nat → Bool → Nat × Nat × Bool
  | [], res, rv, ovf => (res, rv, ovf)
  | c :: s, res, rv, ovf =>
    match digit_val c with
    | none => (res, rv, ovf)
    | some val =>
      if val ≥ base then (res, rv, ovf)
      else
        let ovf :=
          ovf || (decide (res &&& 0xF000000000000000 ≠ 0)
                    && decide (res > (0xFFFFFFFFFFFFFFFF - val) / base))
        _parse_integer_loop base s ((res * base + val) % 2 ^ 64) (rv + 1) ovf

/-- The kernel's `_parse_integer`: the accumulated value, the number of digits
consumed and the overflow flag. -/
def _parse_integer (s : List Nat) (base : Nat) : Nat × Nat × Bool :=
  _parse_integer_loop base s 0 0 false

/-- The kernel's `_kstrtoull`: digits, then an optional newline, then the end of the
string.  An error carries the returned status. -/
def _kstrtoull (s : List Nat) (base : Nat) : Except Int Nat :=
  let sb := _parse_integer_fixup_radix s base
  let r := _parse_integer sb.1 sb.2
  if r.2.2 then .error (-ERANGE)
  else if r.2.1 = 0 then .error (-EINVAL)
  else
    let s := sb.1.drop r.2.1
    let s := if at_ s 0 = 10 then s.drop 1 else s
    if at_ s 0 ≠ 0 then .error (-EINVAL) else .ok r.1

/-- The kernel's `kstrtoull`: an optional leading `+`, then `_kstrtoull`. -/
def kstrtoull (s : List Nat) (base : Nat) : Except Int Nat :=
  _kstrtoull (if at_ s 0 = 43 then s.drop 1 else s) base

/-- The kernel's `kstrtoll`: a leading `-` negates; out of `long long` range is
`-ERANGE`. -/
def kstrtoll (s : List Nat) (base : Nat) : Except Int Int :=
  if at_ s 0 = 45 then
    match _kstrtoull (s.drop 1) base with
    | .error rv => .error rv
    | .ok tmp =>
      if to_s64 (2 ^ 64 - tmp % 2 ^ 64) > 0 then .error (-ERANGE)
      else .ok (to_s64 (2 ^ 64 - tmp % 2 ^ 64))
  else
    match kstrtoull s base with
    | .error rv => .error rv
    | .ok tmp => if to_s64 tmp < 0 then .error (-ERANGE) else .ok (to_s64 tmp)

/-- The kernel's `kstrtoint`: `kstrtoll`, then `-ERANGE` unless the value fits an
`int`.  `.ok v` is status `0` with `*res = v`; `.error rv` is the status `rv`, with
`*res` not written. -/
def kstrtoint (s : List Nat) (base : Nat) : Except Int Int :=
  match kstrtoll s base with
  | .error rv => .error rv
  | .ok tmp => if tmp ≠ to_s32 tmp then .error (-ERANGE) else .ok tmp

/-! ## Formatting (`sprintf`) -/

/-- The decimal digits of `n`, most significant first, as ASCII bytes; `fuel`
bounds the number of digits. -/
def fmt_u_loop : Nat → Nat → List Nat → List Nat
  | 0, _, acc => acc
  | fuel + 1, n, acc =>
    if n < 10 then (48 + n) :: acc
    else fmt_u_loop fuel (n / 10) ((48 + n % 10) :: acc)

/-- The conversion `%u`: the decimal digits of `n`. -/
def fmt_u (n : Nat) : List Nat := fmt_u_loop (n + 1) n []

/-- The conversion `%d`: a `-` sign for a negative number, then the digits of its
magnitude. -/
def fmt_d (n : Int) : List Nat :=
  if n < 0 then 45 :: fmt_u n.natAbs else fmt_u n.natAbs

/-! ## The pin -/

/-- The source's `struct vgpiod_data`: the kobject's name and reference count,
the GPIO number and the four attributes.  The mutex and `value_kn` carry no
sequential state. -/
structure vgpiod_data where
  kobj_name : List Nat
  kref : Nat
  gpio : Int
  direction : Int
  value : Int
  edge : Int
  active_low : Int
deriving DecidableEq, Repr

/-- The source's `direction_show`: `sprintf(buf, "%s\n", ...)`; the status and the
bytes written. -/
def direction_show (data : vgpiod_data) : Int × List Nat :=
  let out := (if data.direction ≠ 0 then lit "out" else lit "in") ++ [10]
  ((out.length : Int), out)

/-- The source's `direction_store`. -/
def direction_store (data : vgpiod_data) (buf : List Nat) (size : Nat) : Int × vgpiod_data :=
  let r : Int × vgpiod_data :=
    if sysfs_streq buf (lit "high") then
      (0, { data with direction := 1, value := 1 })
    else if sysfs_streq buf (lit "low") then
      (0, { data with direction := 1, value := 0 })
    else if sysfs_streq buf (lit "out") then
      (0, { data with direction := 1 })
    else if sysfs_streq buf (lit "in") then
      (0, { data with direction := 0 })
    else
      (-EINVAL, data)
  (if r.1 ≠ 0 then r.1 else to_ssize size, r.2)

/-- The C operator `!` on an `int`: `1` for zero, `0` otherwise. -/
def lnot (v : Int) : Int := if v = 0 then 1 else 0

/-- The source's `value_show`: the status and the two bytes written.  The
assignment `buf[0] = '0' + value` narrows a `long` to a `char`. -/
def value_show (data : vgpiod_data) : Int × List Nat :=
  let value : Int := data.value
  let value := if data.active_low ≠ 0 then lnot value else value
  (2, [((48 + value) % 256).toNat, 10])

/-- The source's `value_store` (the direction check is compiled out by `#if 0`). -/
def value_store (data : vgpiod_data) (buf : List Nat) (size : Nat) : Int × vgpiod_data :=
  let parsed : Except Int Int :=
    if size ≤ 2 ∧ isdigit (at_ buf 0) = true ∧ (size = 1 ∨ at_ buf 1 = 10) then
      .ok ((at_ buf 0 : Int) - 48)
    else
      kstrtoint buf 0
  match parsed with
  | .ok value =>
    let value := if data.active_low ≠ 0 then lnot value else value
    (to_ssize size, { data with value := value })
  | .error status => (status, data)

/-- The source's table `trigger_types`: names and flags. -/
def trigger_types : List (List Nat × Nat) :=
  [ (lit "none", 0),
    (lit "falling", GPIO_IRQF_TRIGGER_FALLING),
    (lit "rising", GPIO_IRQF_TRIGGER_RISING),
    (lit "both", GPIO_IRQF_TRIGGER_BOTH) ]

/-- The source's `edge_show`: the first table entry whose flags equal the stored
edge is printed with `"%s\n"`; without a match the status stays `0` and nothing is
written. -/
def edge_show (data : vgpiod_data) : Int × List Nat :=
  match trigger_types.find? (fun t => decide (data.edge = (t.2 : Int))) with
  | some t => (((t.1 ++ [10]).length : Int), t.1 ++ [10])
  | none => (0, [])

/-- The source's `edge_store`: the first table entry whose name matches `buf` under
`sysfs_streq` gives the flags to store; without a match the result is `-EINVAL`. -/
def edge_store (data : vgpiod_data) (buf : List Nat) (size : Nat) : Int × vgpiod_data :=
  match trigger_types.find? (fun t => sysfs_streq t.1 buf) with
  | none => (-EINVAL, data)
  | some t => (to_ssize size, { data with edge := (t.2 : Int) })

/-- The source's `vgpio_sysfs_set_active_low`: stores `!!value`, returns `0`. -/
def vgpio_sysfs_set_active_low (data : vgpiod_data) (value : Int) : Int × vgpiod_data :=
  (0, { data with active_low := lnot (lnot value) })

/-- The source's `active_low_show`: `sprintf(buf, "%d\n", data->active_low)`. -/
def active_low_show (data : vgpiod_data) : Int × List Nat :=
  let out := fmt_d data.active_low ++ [10]
  ((out.length : Int), out)

/-- The source's `active_low_store`. -/
def active_low_store (data : vgpiod_data) (buf : List Nat) (size : Nat) : Int × vgpiod_data :=
  let r : Int × vgpiod_data :=
    match kstrtoint buf 0 with
    | .ok value => vgpio_sysfs_set_active_low data value
    | .error status => (status, data)
  (if r.1 ≠ 0 then r.1 else to_ssize size, r.2)

/-! ## The registry

The kset `vgpio_kset` and the kobject operations on it belong to the kernel
(lib/kobject.c); the driver only calls them.  They are modelled sequentially:
the kset is the list of the kobjects linked into it, a kobject pointer is a
position in that list, and a kobject whose reference count drops to zero is
unlinked and released (`vgpiod_release` frees it). -/

/-- The kset `vgpio_kset`: the pins linked into it, in list order. -/
abbrev kset := List vgpiod_data

/-- The name `"gpio%d"` of a pin. -/
def gpio_name (gpio : Int) : List Nat := lit "gpio" ++ fmt_d gpio

/-- The names already present in the sysfs directory of the kset: its two
attribute files and the directories of its kobjects. -/
def dir_names (k : kset) : List (List Nat) :=
  lit "export" :: lit "unexport" :: k.map (fun d => d.kobj_name)

/-- The kernel's `kobject_init_and_add` for a new kobject embedded in `data`: the
reference count is initialised to `1` and the name set; creating the sysfs
directory fails with `-EEXIST` when the name is taken, and otherwise the kobject is
linked at the tail of the kset. -/
def kobject_init_and_add (k : kset) (data : vgpiod_data) (name : List Nat) : Except Int kset :=
  if name ∈ dir_names k then .error (-EEXIST)
  else .ok (k ++ [{ data with kobj_name := name, kref := 1 }])

/-- The kernel's `kset_find_obj`: the first kobject of the kset with the given
name, with its reference count incremented. -/
def kset_find_obj (k : kset) (name : List Nat) : Option Nat × kset :=
  match k.findIdx? (fun d => decide (d.kobj_name = name)) with
  | some i => (some i, k.modify (fun d => { d with kref := d.kref + 1 }) i)
  | none => (none, k)

/-- The kernel's `kobject_put` on the kobject at position `i`: the reference count
is decremented, and at zero the kobject is unlinked from the kset and released. -/
def kobject_put (k : kset) (i : Nat) : kset :=
  match k.get? i with
  | none => k
  | some d => if d.kref - 1 = 0 then k.eraseIdx i else k.set i { d with kref := d.kref - 1 }

/-- The source's `vgpiod_export`.  `kzalloc_ok` tells whether `kzalloc` returned
memory; the new pin is zero-initialised apart from `gpio`. -/
def vgpiod_export (k : kset) (kzalloc_ok : Bool) (gpio : Int) : Int × kset :=
  if !kzalloc_ok then (-ENOMEM, k)
  else
    let data : vgpiod_data :=
      { kobj_name := [], kref := 0, gpio := gpio,
        direction := 0, value := 0, edge := 0, active_low := 0 }
    match kobject_init_and_add k data (gpio_name gpio) with
    | .error status => (status, k)
    | .ok k1 => (0, k1)

/-- The source's `vgpiod_unexport`: the kobject found by name is put twice. -/
def vgpiod_unexport (k : kset) (gpio : Int) : kset :=
  match kset_find_obj k (gpio_name gpio) with
  | (some i, k1) => kobject_put (kobject_put k1 i) i
  | (none, k1) => k1

/-- The source's `export_store` (the variant compiled in). -/
def export_store (k : kset) (kzalloc_ok : Bool) (buf : List Nat) (size : Nat) : Int × kset :=
  match kstrtoint buf 0 with
  | .error status => (if status ≠ 0 then status else to_ssize size, k)
  | .ok gpio =>
    if gpio < 0 then (-EINVAL, k)
    else
      let r := vgpiod_export k kzalloc_ok gpio
      (if r.1 ≠ 0 then r.1 else to_ssize size, r.2)

/-- The source's `unexport_store` (the variant compiled in). -/
def unexport_store (k : kset) (buf : List Nat) (size : Nat) : Int × kset :=
  match kstrtoint buf 0 with
  | .error status => (if status ≠ 0 then status else to_ssize size, k)
  | .ok gpio =>
    if gpio < 0 then (-EINVAL, k)
    else (to_ssize size, vgpiod_unexport k gpio)

/-! ## Notions used by the statements -/

/-- The live pin named `gpio<id>`, if any. -/
def find_pin (k : kset) (id : Int) : Option vgpiod_data :=
  k.find? (fun d => decide (d.kobj_name = gpio_name id))

/-- A registry at rest: names are unique within the sysfs directory, and every
pin is referenced by its registry entry only. -/
def registry_ok (k : kset) : Prop :=
  (k.map (fun d => d.kobj_name)).Nodup ∧ ∀ d ∈ k, d.kref = 1

/-- The state `vgpiod_export` gives a new pin. -/
def default_pin (gpio : Int) : vgpiod_data :=
  { kobj_name := gpio_name gpio, kref := 1, gpio := gpio,
    direction := 0, value := 0, edge := 0, active_low := 0 }

/-- The registry of the scenario export(7), direction `out`, value `1`,
active_low `1`, each store being applied to the pin exported. -/
def scenario7 : kset :=
  (vgpiod_export [] true 7).2.map (fun d =>
    (active_low_store (value_store (direction_store d (lit "out") 3).2 (lit "1") 1).2
      (lit "1") 1).2)

/-! ## Attribute dispatch and sequences of operations -/

/-- The source's four `struct vgpiod_attribute` objects, the members of
`vgpiod_default_attrs`.  Each of them has both a `show` and a `store` method, so
the `-EIO` branches of `vgpiod_attr_show` and `vgpiod_attr_store` are never taken. -/
inductive vgpiod_attribute where
  | vgpiod_direction_attr
  | vgpiod_edge_attr
  | vgpiod_value_attr
  | vgpiod_active_low_attr
deriving DecidableEq, Repr

/-- The source's `vgpiod_attr_show`: the `show` method of the attribute. -/
def vgpiod_attr_show (data : vgpiod_data) : vgpiod_attribute → Int × List Nat
  | .vgpiod_direction_attr => direction_show data
  | .vgpiod_edge_attr => edge_show data
  | .vgpiod_value_attr => value_show data
  | .vgpiod_active_low_attr => active_low_show data

/-- The source's `vgpiod_attr_store`: the `store` method of the attribute. -/
def vgpiod_attr_store (data : vgpiod_data) (attr : vgpiod_attribute) (buf : List Nat)
    (size : Nat) : Int × vgpiod_data :=
  match attr with
  | .vgpiod_direction_attr => direction_store data buf size
  | .vgpiod_edge_attr => edge_store data buf size
  | .vgpiod_value_attr => value_store data buf size
  | .vgpiod_active_low_attr => active_low_store data buf size

/-- The pin after a sequence of stores, each given by its attribute, buffer and
size, whatever status each returns. -/
def run_stores (ops : List (vgpiod_attribute × List Nat × Nat)) (data : vgpiod_data) :
    vgpiod_data :=
  ops.foldl (fun d op => (vgpiod_attr_store d op.1 op.2.1 op.2.2).2) data

/-- A write to the sysfs file of attribute `attr` in the directory `gpio<id>`: sysfs
resolves the directory to its kobject and calls `vgpiod_attr_store` on it.  `none`
when no such directory exists. -/
def gpio_attr_write (k : kset) (id : Int) (attr : vgpiod_attribute) (buf : List Nat)
    (size : Nat) : Option (Int × kset) :=
  match k with
  | [] => none
  | d :: k1 =>
    if d.kobj_name = gpio_name id then
      some ((vgpiod_attr_store d attr buf size).1, (vgpiod_attr_store d attr buf size).2 :: k1)
    else
      (gpio_attr_write k1 id attr buf size).map (fun r => (r.1, d :: r.2))

/-- A read of the sysfs file of attribute `attr` in the directory `gpio<id>`: sysfs
resolves the directory to its kobject and calls `vgpiod_attr_show` on it. -/
def gpio_attr_read (k : kset) (id : Int) (attr : vgpiod_attribute) : Option (Int × List Nat) :=
  (find_pin k id).map (fun d => vgpiod_attr_show d attr)

/-- The test of the scan in the source's `unexport_all`: the name differs from
`export` and from `unexport` (a linked kobject always has a name). -/
def is_pin_entry (d : vgpiod_data) : Bool :=
  decide (d.kobj_name ≠ lit "export") && decide (d.kobj_name ≠ lit "unexport")

/-- One iteration of the loop of the source's `unexport_all`: the first entry that
passes the test is put once; `none` when there is none and the loop breaks. -/
def unexport_all_step (k : kset) : Option kset :=
  match k.findIdx? is_pin_entry with
  | some i => some (kobject_put k i)
  | none => none

/-- The loop `while (1)` of the source's `unexport_all`, run for at most `fuel`
iterations: `some k` is the registry at the `break`, `none` means that the
iterations allowed did not reach it. -/
def unexport_all_loop : Nat → kset → Option kset
  | 0, _ => none
  | fuel + 1, k =>
    match unexport_all_step k with
    | some k1 => unexport_all_loop fuel k1
    | none => some k

/-- A bound on the number of iterations of `unexport_all`: every iteration drops
one reference or one entry. -/
def kset_refs (k : kset) : Nat := (k.map (fun d => d.kref + 1)).sum

/-- The source's `unexport_all`. -/
def unexport_all (k : kset) : Option kset := unexport_all_loop (kset_refs k + 1) k

/-- A call on the registry: `vgpiod_export` (with the outcome of its `kzalloc`),
`vgpiod_unexport` or `unexport_all`. -/
inductive registry_op where
  | vgpiod_export (gpio : Int) (kzalloc_ok : Bool)
  | vgpiod_unexport (gpio : Int)
  | unexport_all
deriving DecidableEq, Repr

/-- The registry after one call. -/
def apply_op (k : kset) : registry_op → kset
  | .vgpiod_export gpio kzalloc_ok => (vgpiod_export k kzalloc_ok gpio).2
  | .vgpiod_unexport gpio => vgpiod_unexport k gpio
  | .unexport_all => (unexport_all k).getD k

/-- The registry after a sequence of calls. -/
def run_ops (ops : List registry_op) (k : kset) : kset := ops.foldl apply_op k

/-- The invariant of the registry: it is at rest and every pin is named after its
number. -/
def registry_inv (k : kset) : Prop :=
  registry_ok k ∧ ∀ d ∈ k, d.kobj_name = gpio_name d.gpio

/-- The invariant of the pin: the stored edge is a flag of the table and the polarity is 0 or 1. -/
def pin_inv (d : vgpiod_data) : Prop :=
  (d.edge = 0 ∨ d.edge = 1 ∨ d.edge = 2 ∨ d.edge = 3) ∧ (d.active_low = 0 ∨ d.active_low = 1)

/-! ## Facts about buffers and `sysfs_streq` -/

theorem at_nil (i : Nat) : at_ [] i = 0 := by simp [at_]

theorem at_cons_zero (c : Nat) (s : List Nat) : at_ (c :: s) 0 = c := by simp [at_]

theorem at_cons_succ (c : Nat) (s : List Nat) (i : Nat) : at_ (c :: s) (i + 1) = at_ s i := by
  simp [at_]

theorem cstr_nil : cstr [] = [] := by simp [cstr]

theorem cstr_cons_zero (s : List Nat) : cstr (0 :: s) = [] := by simp [cstr]

theorem cstr_cons_ne (c : Nat) (s : List Nat) (h : c ≠ 0) : cstr (c :: s) = c :: cstr s := by
  simp [cstr, List.takeWhile_cons, h]

theorem cstr_eq_nil_iff (s : List Nat) : cstr s = [] ↔ at_ s 0 = 0 := by
  cases s with
  | nil => simp [cstr, at_]
  | cons c t =>
    by_cases h : c = 0
    · subst h; simp [cstr, at_]
    · simp [cstr_cons_ne c t h, at_, h]

/-- A token without NUL and without newline is matched by `sysfs_streq` exactly by
the C strings equal to it or to it followed by one newline. -/
theorem sysfs_streq_token (tok : List Nat) :
    (∀ c ∈ tok, c ≠ 0 ∧ c ≠ 10) →
    ∀ buf : List Nat, sysfs_streq buf tok = true ↔ (cstr buf = tok ∨ cstr buf = tok ++ [10]) := by
  intro htok buf
  induction buf generalizing tok with
  | nil =>
    cases tok with
    | nil => simp [sysfs_streq, sysfs_streq_end, at_, cstr]
    | cons t ts =>
      have h := htok t (by simp)
      simp [sysfs_streq, sysfs_streq_end, at_, cstr, h.1, h.2, Ne.symm h.1]
  | cons c s ih =>
    cases tok with
    | nil =>
      by_cases hc : c = 0
      · subst hc; simp [sysfs_streq, sysfs_streq_end, at_, cstr]
      · have hs := cstr_eq_nil_iff s
        simp only [at_] at hs
        simp [sysfs_streq, sysfs_streq_end, at_, cstr_cons_ne c s hc, hc, hs]
    | cons t ts =>
      have h := htok t (by simp)
      have hts : ∀ x ∈ ts, x ≠ 0 ∧ x ≠ 10 := fun x hx => htok x (by simp [hx])
      by_cases hc : c = 0
      · subst hc
        simp [sysfs_streq, sysfs_streq_end, at_, cstr, h.1, h.2, Ne.symm h.1]
      · by_cases hct : c = t
        · subst hct
          simp [sysfs_streq, at_, cstr_cons_ne c s hc, hc, ih ts hts]
        · simp [sysfs_streq, sysfs_streq_end, at_, cstr_cons_ne c s hc, hc, hct, h.1, h.2]

/-- Below `2 ^ 63` a size is returned as itself. -/
theorem to_ssize_of_lt (size : Nat) (h : size < 2 ^ 63) : to_ssize size = (size : Int) := by
  unfold to_ssize to_s64
  have hm : size % 2 ^ 64 = size := Nat.mod_eq_of_lt (by omega)
  rw [hm, if_pos h]

/-! ## The direction attribute -/

/-- C1: `direction_store` on a C string equal to `high`, `low`, `out` or `in`,
optionally followed by one newline, returns `size` and sets respectively
direction 1 and value 1, direction 1 and value 0, direction 1 only, direction 0
only, every other field being kept; on any other input it returns `-EINVAL`. The size is
returned as an `ssize_t`, which is the size itself below `2 ^ 63`. -/
theorem direction_store_spec (data : vgpiod_data) (buf : List Nat) (size : Nat) :
    (size < 2 ^ 63 → to_ssize size = (size : Int)) ∧
    ((cstr buf = lit "high" ∨ cstr buf = lit "high\n") →
      direction_store data buf size
        = (to_ssize size, { data with direction := 1, value := 1 })) ∧
    ((cstr buf = lit "low" ∨ cstr buf = lit "low\n") →
      direction_store data buf size
        = (to_ssize size, { data with direction := 1, value := 0 })) ∧
    ((cstr buf = lit "out" ∨ cstr buf = lit "out\n") →
      direction_store data buf size = (to_ssize size, { data with direction := 1 })) ∧
    ((cstr buf = lit "in" ∨ cstr buf = lit "in\n") →
      direction_store data buf size = (to_ssize size, { data with direction := 0 })) ∧
    (cstr buf ∉ [lit "high", lit "high\n", lit "low", lit "low\n",
                 lit "out", lit "out\n", lit "in", lit "in\n"] →
      (direction_store data buf size).1 = -EINVAL) := by
  refine ⟨fun hs => to_ssize_of_lt size hs, ?_⟩
  have hh := sysfs_streq_token (lit "high") (by decide) buf
  have hl := sysfs_streq_token (lit "low") (by decide) buf
  have ho := sysfs_streq_token (lit "out") (by decide) buf
  have hi := sysfs_streq_token (lit "in") (by decide) buf
  have e1 : lit "high" ++ [10] = lit "high\n" := by decide
  have e2 : lit "low" ++ [10] = lit "low\n" := by decide
  have e3 : lit "out" ++ [10] = lit "out\n" := by decide
  have e4 : lit "in" ++ [10] = lit "in\n" := by decide
  rw [e1] at hh
  rw [e2] at hl
  rw [e3] at ho
  rw [e4] at hi
  refine ⟨?_, ?_, ?_, ?_, ?_⟩
  · intro h
    simp [direction_store, hh.mpr h]
  · intro h
    have nh : sysfs_streq buf (lit "high") = false := by
      rw [Bool.eq_false_iff]; intro c; rw [hh] at c
      rcases h with h | h <;> rcases c with c | c <;> rw [h] at c <;> revert c <;> decide
    simp [direction_store, nh, hl.mpr h]
  · intro h
    have nh : sysfs_streq buf (lit "high") = false := by
      rw [Bool.eq_false_iff]; intro c; rw [hh] at c
      rcases h with h | h <;> rcases c with c | c <;> rw [h] at c <;> revert c <;> decide
    have nl : sysfs_streq buf (lit "low") = false := by
      rw [Bool.eq_false_iff]; intro c; rw [hl] at c
      rcases h with h | h <;> rcases c with c | c <;> rw [h] at c <;> revert c <;> decide
    simp [direction_store, nh, nl, ho.mpr h]
  · intro h
    have nh : sysfs_streq buf (lit "high") = false := by
      rw [Bool.eq_false_iff]; intro c; rw [hh] at c
      rcases h with h | h <;> rcases c with c | c <;> rw [h] at c <;> revert c <;> decide
    have nl : sysfs_streq buf (lit "low") = false := by
      rw [Bool.eq_false_iff]; intro c; rw [hl] at c
      rcases h with h | h <;> rcases c with c | c <;> rw [h] at c <;> revert c <;> decide
    have no : sysfs_streq buf (lit "out") = false := by
      rw [Bool.eq_false_iff]; intro c; rw [ho] at c
      rcases h with h | h <;> rcases c with c | c <;> rw [h] at c <;> revert c <;> decide
    simp [direction_store, nh, nl, no, hi.mpr h]
  · intro h
    simp only [List.mem_cons, List.mem_singleton, List.not_mem_nil, or_false, not_or] at h
    obtain ⟨a1, a2, a3, a4, a5, a6, a7, a8⟩ := h
    have nh : sysfs_streq buf (lit "high") = false := by
      rw [Bool.eq_false_iff, Ne, hh]; exact fun c => c.elim a1 a2
    have nl : sysfs_streq buf (lit "low") = false := by
      rw [Bool.eq_false_iff, Ne, hl]; exact fun c => c.elim a3 a4
    have no : sysfs_streq buf (lit "out") = false := by
      rw [Bool.eq_false_iff, Ne, ho]; exact fun c => c.elim a5 a6
    have ni : sysfs_streq buf (lit "in") = false := by
      rw [Bool.eq_false_iff, Ne, hi]; exact fun c => c.elim a7 a8
    simp [direction_store, nh, nl, no, ni]
    intro h0
    exact absurd h0 (by decide)

/-- Witness of C1: the three-byte write of `in` and a newline to a fresh pin. -/
theorem direction_store_spec_witness :
    (cstr (lit "in\n") = lit "in" ∨ cstr (lit "in\n") = lit "in\n") ∧
    direction_store (default_pin 3) (lit "in\n") 3
      = (to_ssize 3, { default_pin 3 with direction := 0 }) :=
  ⟨by decide, (direction_store_spec (default_pin 3) (lit "in\n") 3).2.2.2.2.1 (by decide)⟩

/-! ## The value attribute -/

theorem isdigit_iff (c : Nat) : isdigit c = true ↔ 48 ≤ c ∧ c ≤ 57 := by
  simp [isdigit]

/-- C2: on the fast path (`size ≤ 2`, `buf[0]` a decimal digit, and `size = 1` or
`buf[1]` a newline) the integer is `buf[0] - '0'`, otherwise it is the result of
`kstrtoint(buf, 0, _)`; when it is obtained, `value_store` returns `size` and stores
it unchanged if `active_low` is zero, and `1` for zero, `0` for nonzero otherwise,
keeping every other field; the direction plays no part in the outcome. The size is
returned as an `ssize_t`, which is the size itself below `2 ^ 63`. -/
theorem value_store_spec (data : vgpiod_data) (buf : List Nat) (size : Nat) (n : Int) :
    (size < 2 ^ 63 → to_ssize size = (size : Int)) ∧
    ((size ≤ 2 ∧ 48 ≤ at_ buf 0 ∧ at_ buf 0 ≤ 57 ∧ (size = 1 ∨ at_ buf 1 = 10)) →
      n = (at_ buf 0 : Int) - 48 →
      value_store data buf size
        = (to_ssize size,
           { data with value := if data.active_low = 0 then n else (if n = 0 then 1 else 0) })) ∧
    (¬ (size ≤ 2 ∧ 48 ≤ at_ buf 0 ∧ at_ buf 0 ≤ 57 ∧ (size = 1 ∨ at_ buf 1 = 10)) →
      kstrtoint buf 0 = .ok n →
      value_store data buf size
        = (to_ssize size,
           { data with value := if data.active_low = 0 then n else (if n = 0 then 1 else 0) })) ∧
    (∀ dir : Int,
      value_store { data with direction := dir } buf size
        = ((value_store data buf size).1,
           { (value_store data buf size).2 with direction := dir })) := by
  refine ⟨fun hs => to_ssize_of_lt size hs, ?_⟩
  refine ⟨?_, ?_, ?_⟩
  · intro hf hn
    have hc : size ≤ 2 ∧ isdigit (at_ buf 0) = true ∧ (size = 1 ∨ at_ buf 1 = 10) :=
      ⟨hf.1, (isdigit_iff _).mpr ⟨hf.2.1, hf.2.2.1⟩, hf.2.2.2⟩
    unfold value_store
    rw [if_pos hc, hn]
    by_cases ha : data.active_low = 0 <;> simp [ha, lnot]
  · intro hf hk
    have hc : ¬ (size ≤ 2 ∧ isdigit (at_ buf 0) = true ∧ (size = 1 ∨ at_ buf 1 = 10)) := by
      rintro ⟨h1, h2, h3⟩
      exact hf ⟨h1, ((isdigit_iff _).mp h2).1, ((isdigit_iff _).mp h2).2, h3⟩
    unfold value_store
    rw [if_neg hc, hk]
    by_cases ha : data.active_low = 0 <;> simp [ha, lnot]
  · intro dir
    unfold value_store
    split
    · rfl
    · cases kstrtoint buf 0 <;> rfl

/-- Witness of C2: the write `0x10` to an input pin with `active_low` clear
stores 16. -/
theorem value_store_spec_witness :
    ¬ ((4 : Nat) ≤ 2 ∧ 48 ≤ at_ (lit "0x10") 0 ∧ at_ (lit "0x10") 0 ≤ 57
        ∧ ((4 : Nat) = 1 ∨ at_ (lit "0x10") 1 = 10)) ∧
    kstrtoint (lit "0x10") 0 = .ok 16 ∧
    value_store (default_pin 3) (lit "0x10") 4
      = (to_ssize 4,
         { default_pin 3 with
           value := if (default_pin 3).active_low = 0 then 16 else (if (16 : Int) = 0 then 1 else 0) }) :=
  ⟨by decide, by decide,
   (value_store_spec (default_pin 3) (lit "0x10") 4 16).2.2.1 (by decide) (by decide)⟩

/-- Counterexample to C3 as stated: the value 256, stored by writing `256` to a
fresh pin, lies outside 0..1 and is shown as the character `0`. -/
theorem value_show_wraps :
    (value_store (default_pin 0) (lit "256") 3).2.value = 256 ∧
    (value_store (default_pin 0) (lit "256") 3).2.active_low = 0 ∧
    value_show (value_store (default_pin 0) (lit "256") 3).2 = (2, lit "0\n") := by
  decide

/-- C3, amended: `value_show` returns 2 and writes two bytes, the second a
newline; the first is `1` for a stored zero and `0` otherwise when `active_low` is
set, and the byte `(48 + value) mod 256` when it is clear, so that with
`active_low` clear the output is the character `0` exactly for the stored values
congruent to 0 modulo 256 and the character `1` exactly for those congruent to 1;
every other stored value is shown as another byte. -/
theorem value_show_spec (data : vgpiod_data) :
    (data.active_low ≠ 0 →
      value_show data = (2, [if data.value = 0 then 49 else 48, 10])) ∧
    (data.active_low = 0 →
      value_show data = (2, [((48 + data.value) % 256).toNat, 10]) ∧
      (value_show data = (2, lit "0\n") ↔ data.value % 256 = 0) ∧
      (value_show data = (2, lit "1\n") ↔ data.value % 256 = 1)) := by
  refine ⟨?_, ?_⟩
  · intro h
    by_cases hv : data.value = 0 <;> simp [value_show, h, hv, lnot]
  · intro h
    have e0 : lit "0\n" = [48, 10] := by decide
    have e1 : lit "1\n" = [49, 10] := by decide
    have hb : 0 ≤ (48 + data.value) % 256 := Int.emod_nonneg _ (by decide)
    refine ⟨by simp [value_show, h], ?_, ?_⟩
    · simp only [value_show, h, e0, ne_eq, not_true_eq_false, if_false, Prod.mk.injEq,
        true_and, List.cons.injEq, and_true]
      omega
    · simp only [value_show, h, e1, ne_eq, not_true_eq_false, if_false, Prod.mk.injEq,
        true_and, List.cons.injEq, and_true]
      omega

/-- Witness of C3: a pin holding 5 with `active_low` clear shows the character `5`. -/
theorem value_show_spec_witness :
    ({ default_pin 3 with value := 5 } : vgpiod_data).active_low = 0 ∧
    value_show { default_pin 3 with value := 5 } = (2, [((48 + (5 : Int)) % 256).toNat, 10]) :=
  ⟨by decide, ((value_show_spec { default_pin 3 with value := 5 }).2 (by decide)).1⟩

/-! ## Parsing lemmas -/

/-- Every failure of `_kstrtoull` is `-EINVAL` or `-ERANGE`. -/
theorem _kstrtoull_error (s : List Nat) (base : Nat) (e : Int)
    (h : _kstrtoull s base = .error e) : e = -EINVAL ∨ e = -ERANGE := by
  unfold _kstrtoull at h
  simp only at h
  split_ifs at h <;> cases h <;> simp

/-- Every failure of `kstrtoint` is `-EINVAL` or `-ERANGE`. -/
theorem kstrtoint_error (s : List Nat) (base : Nat) (e : Int)
    (h : kstrtoint s base = .error e) : e = -EINVAL ∨ e = -ERANGE := by
  unfold kstrtoint at h
  split at h
  · rename_i rv hrv
    cases h
    unfold kstrtoll at hrv
    split_ifs at hrv
    · split at hrv
      · rename_i rv1 h1
        cases hrv
        exact _kstrtoull_error _ _ _ h1
      · split_ifs at hrv
        cases hrv
        simp
    · split at hrv
      · rename_i rv1 h1
        cases hrv
        exact _kstrtoull_error _ _ _ h1
      · split_ifs at hrv
        cases hrv
        simp
  · split_ifs at h
    cases h
    simp

/-- A failure status of `kstrtoint` is negative. -/
theorem kstrtoint_error_neg (s : List Nat) (base : Nat) (e : Int)
    (h : kstrtoint s base = .error e) : e < 0 := by
  rcases kstrtoint_error s base e h with h | h <;> rw [h] <;> decide

/-- The effect of `value_store` once its integer is known. -/
theorem value_store_of_parse (d : vgpiod_data) (buf : List Nat) (size : Nat) (n : Int)
    (h : (if size ≤ 2 ∧ isdigit (at_ buf 0) = true ∧ (size = 1 ∨ at_ buf 1 = 10) then
            Except.ok ((at_ buf 0 : Int) - 48)
          else kstrtoint buf 0) = .ok n) :
    value_store d buf size
      = (to_ssize size, { d with value := if d.active_low ≠ 0 then lnot n else n }) := by
  unfold value_store
  rw [h]

/-- The effect of `value_store` when its integer cannot be obtained. -/
theorem value_store_of_error (d : vgpiod_data) (buf : List Nat) (size : Nat) (e : Int)
    (h : (if size ≤ 2 ∧ isdigit (at_ buf 0) = true ∧ (size = 1 ∨ at_ buf 1 = 10) then
            Except.ok ((at_ buf 0 : Int) - 48)
          else kstrtoint buf 0) = .error e) :
    value_store d buf size = (e, d) := by
  unfold value_store
  rw [h]

/-- The C string `1` parses to 1. -/
theorem kstrtoint_one : kstrtoint (lit "1") 0 = .ok 1 := by decide

/-! ## Polarity -/

/-- Counterexample to C4 as stated: on a fresh pin, after `active_low` is written
`1` and then `value` is written `1`, `value_show` gives `1`, not `0`. -/
theorem active_low_value_shows_one :
    (active_low_store (default_pin 0) (lit "1") 1).1 = 1 ∧
    (value_store (active_low_store (default_pin 0) (lit "1") 1).2 (lit "1") 1).1 = 1 ∧
    value_show (value_store (active_low_store (default_pin 0) (lit "1") 1).2 (lit "1") 1).2
      = (2, lit "1\n") ∧
    value_show (value_store (active_low_store (default_pin 0) (lit "1") 1).2 (lit "1") 1).2
      ≠ (2, lit "0\n") := by
  decide

/-- C4, amended: from every pin state, writing `1` to `active_low` and then `1` to
`value` both succeed, the raw value stored is 0 (inverted at write time), and the
next `value_show` inverts it again and returns `1` followed by a newline. The size is
returned as an `ssize_t`, which is the size itself below `2 ^ 63`. -/
theorem active_low_then_value_one (data : vgpiod_data) (size1 size2 : Nat) :
    (size1 < 2 ^ 63 → to_ssize size1 = (size1 : Int)) ∧
    (size2 < 2 ^ 63 → to_ssize size2 = (size2 : Int)) ∧
    (active_low_store data (lit "1") size1).1 = to_ssize size1 ∧
    (value_store (active_low_store data (lit "1") size1).2 (lit "1") size2).1 = to_ssize size2 ∧
    (value_store (active_low_store data (lit "1") size1).2 (lit "1") size2).2
      = { data with active_low := 1, value := 0 } ∧
    value_show (value_store (active_low_store data (lit "1") size1).2 (lit "1") size2).2
      = (2, lit "1\n") := by
  refine ⟨fun hs => to_ssize_of_lt size1 hs, fun hs => to_ssize_of_lt size2 hs, ?_⟩
  have ha : active_low_store data (lit "1") size1
      = (to_ssize size1, { data with active_low := 1 }) := by
    simp [active_low_store, kstrtoint_one, vgpio_sysfs_set_active_low, lnot]
  have hv : ∀ d : vgpiod_data, d.active_low = 1 →
      value_store d (lit "1") size2 = (to_ssize size2, { d with value := 0 }) := by
    intro d hd
    have hp : (if size2 ≤ 2 ∧ isdigit (at_ (lit "1") 0) = true
                  ∧ (size2 = 1 ∨ at_ (lit "1") 1 = 10) then
                Except.ok ((at_ (lit "1") 0 : Int) - 48)
              else kstrtoint (lit "1") 0) = .ok 1 := by
      split_ifs
      · decide
      · exact kstrtoint_one
    rw [value_store_of_parse d _ size2 1 hp]
    simp [hd, lnot]
  rw [ha, hv _ rfl]
  refine ⟨rfl, rfl, rfl, ?_⟩
  simp [value_show, lnot]
  decide

/-- Witness of C4: the one-byte writes to a pin that holds the value 5. -/
theorem active_low_then_value_one_witness :
    (1 : Nat) < 2 ^ 63 ∧ to_ssize 1 = ((1 : Nat) : Int) :=
  ⟨by decide,
   (active_low_then_value_one { default_pin 3 with value := 5 } 1 1).1 (by decide)⟩

/-! ## The edge attribute -/

/-- The effect of `edge_store` on a buffer matched first by the table entry `t`. -/
theorem edge_store_of_find (data : vgpiod_data) (buf : List Nat) (size : Nat)
    (t : List Nat × Nat)
    (h : trigger_types.find? (fun t => sysfs_streq t.1 buf) = some t) :
    edge_store data buf size = (to_ssize size, { data with edge := (t.2 : Int) }) := by
  unfold edge_store
  rw [h]

/-- The output of `edge_show` on a stored edge matched first by the table entry `t`. -/
theorem edge_show_of_find (data : vgpiod_data) (t : List Nat × Nat)
    (h : trigger_types.find? (fun t => decide (data.edge = (t.2 : Int))) = some t) :
    edge_show data = (((t.1 ++ [10]).length : Int), t.1 ++ [10]) := by
  unfold edge_show
  rw [h]

/-- The output of `edge_show` on a pin whose stored edge is `e`. -/
theorem edge_show_of_edge (d : vgpiod_data) (e : Int) (t : List Nat × Nat) (he : d.edge = e)
    (h : trigger_types.find? (fun t => decide (e = (t.2 : Int))) = some t) :
    edge_show d = (((t.1 ++ [10]).length : Int), t.1 ++ [10]) := by
  subst he
  exact edge_show_of_find d t h

/-- C5: from every pin state, `edge_store` of each of the names `none`, `falling`,
`rising`, `both` returns `size` and stores the flag 0, 1, 2, 3 respectively, an
immediately following `edge_show` prints that name and a newline (returning its
length), and the four flags of the table are pairwise distinct. The size is
returned as an `ssize_t`, which is the size itself below `2 ^ 63`. -/
theorem edge_round_trip (data : vgpiod_data) (size : Nat) :
    (size < 2 ^ 63 → to_ssize size = (size : Int)) ∧
    (edge_store data (lit "none") size = (to_ssize size, { data with edge := 0 }) ∧
      edge_show (edge_store data (lit "none") size).2 = (5, lit "none\n")) ∧
    (edge_store data (lit "falling") size = (to_ssize size, { data with edge := 1 }) ∧
      edge_show (edge_store data (lit "falling") size).2 = (8, lit "falling\n")) ∧
    (edge_store data (lit "rising") size = (to_ssize size, { data with edge := 2 }) ∧
      edge_show (edge_store data (lit "rising") size).2 = (7, lit "rising\n")) ∧
    (edge_store data (lit "both") size = (to_ssize size, { data with edge := 3 }) ∧
      edge_show (edge_store data (lit "both") size).2 = (5, lit "both\n")) ∧
    (trigger_types.map Prod.snd).Nodup ∧
    trigger_types.map Prod.snd = [0, 1, 2, 3] := by
  refine ⟨fun hs => to_ssize_of_lt size hs, ?_⟩
  have s0 := edge_store_of_find data (lit "none") size (lit "none", 0) (by decide)
  have s1 := edge_store_of_find data (lit "falling") size
    (lit "falling", GPIO_IRQF_TRIGGER_FALLING) (by decide)
  have s2 := edge_store_of_find data (lit "rising") size
    (lit "rising", GPIO_IRQF_TRIGGER_RISING) (by decide)
  have s3 := edge_store_of_find data (lit "both") size
    (lit "both", GPIO_IRQF_TRIGGER_BOTH) (by decide)
  refine ⟨⟨s0, ?_⟩, ⟨s1, ?_⟩, ⟨s2, ?_⟩, ⟨s3, ?_⟩, by decide, by decide⟩
  · rw [s0]
    exact edge_show_of_edge _ 0 (lit "none", 0) rfl (by decide)
  · rw [s1]
    exact edge_show_of_edge _ 1 (lit "falling", GPIO_IRQF_TRIGGER_FALLING) rfl (by decide)
  · rw [s2]
    exact edge_show_of_edge _ 2 (lit "rising", GPIO_IRQF_TRIGGER_RISING) rfl (by decide)
  · rw [s3]
    exact edge_show_of_edge _ 3 (lit "both", GPIO_IRQF_TRIGGER_BOTH) rfl (by decide)

/-- Witness of C5: the five-byte write of `both` and a newline counts as 5. -/
theorem edge_round_trip_witness :
    (5 : Nat) < 2 ^ 63 ∧ to_ssize 5 = ((5 : Nat) : Int) :=
  ⟨by decide, (edge_round_trip (default_pin 3) 5).1 (by decide)⟩

/-! ## Failed stores -/

/-- The effect of `active_low_store` on a buffer that parses to `n`. -/
theorem active_low_store_of_parse (data : vgpiod_data) (buf : List Nat) (size : Nat) (n : Int)
    (h : kstrtoint buf 0 = .ok n) :
    active_low_store data buf size
      = (to_ssize size, { data with active_low := lnot (lnot n) }) := by
  unfold active_low_store
  rw [h]
  simp [vgpio_sysfs_set_active_low]

/-- The effect of `active_low_store` on a buffer that does not parse. -/
theorem active_low_store_of_error (data : vgpiod_data) (buf : List Nat) (size : Nat) (e : Int)
    (h : kstrtoint buf 0 = .error e) :
    active_low_store data buf size = (e, data) := by
  have hne : e ≠ 0 := by
    have := kstrtoint_error_neg _ _ _ h
    omega
  unfold active_low_store
  rw [h]
  simp [hne]

/-- Each store returns `size` as an `ssize_t`, or a negative status with the pin as
it was. -/
theorem store_outcome (data : vgpiod_data) (buf : List Nat) (size : Nat) :
    ((direction_store data buf size).1 = to_ssize size ∨
      ((direction_store data buf size).1 < 0 ∧ (direction_store data buf size).2 = data)) ∧
    ((value_store data buf size).1 = to_ssize size ∨
      ((value_store data buf size).1 < 0 ∧ (value_store data buf size).2 = data)) ∧
    ((edge_store data buf size).1 = to_ssize size ∨
      ((edge_store data buf size).1 < 0 ∧ (edge_store data buf size).2 = data)) ∧
    ((active_low_store data buf size).1 = to_ssize size ∨
      ((active_low_store data buf size).1 < 0 ∧ (active_low_store data buf size).2 = data)) := by
  have hinv : (-EINVAL : Int) < 0 := by decide
  have hne : ¬ (-EINVAL : Int) = 0 := by decide
  refine ⟨?_, ?_, ?_, ?_⟩
  · by_cases h1 : sysfs_streq buf (lit "high") = true
    · exact Or.inl (by simp [direction_store, h1])
    · by_cases h2 : sysfs_streq buf (lit "low") = true
      · exact Or.inl (by simp [direction_store, h1, h2])
      · by_cases h3 : sysfs_streq buf (lit "out") = true
        · exact Or.inl (by simp [direction_store, h1, h2, h3])
        · by_cases h4 : sysfs_streq buf (lit "in") = true
          · exact Or.inl (by simp [direction_store, h1, h2, h3, h4])
          · have hr : direction_store data buf size = (-EINVAL, data) := by
              simp only [direction_store, h1, h2, h3, h4, if_false, ne_eq, hne,
                not_false_eq_true, if_true, Bool.false_eq_true]
            rw [hr]
            exact Or.inr ⟨hinv, rfl⟩
  · cases hp : (if size ≤ 2 ∧ isdigit (at_ buf 0) = true ∧ (size = 1 ∨ at_ buf 1 = 10) then
        Except.ok ((at_ buf 0 : Int) - 48) else kstrtoint buf 0) with
    | ok n =>
      rw [value_store_of_parse data buf size n hp]
      exact Or.inl rfl
    | error e =>
      rw [value_store_of_error data buf size e hp]
      have he : e < 0 := by
        split_ifs at hp
        exact kstrtoint_error_neg _ _ _ hp
      exact Or.inr ⟨he, rfl⟩
  · unfold edge_store
    split
    · exact Or.inr ⟨hinv, rfl⟩
    · exact Or.inl rfl
  · cases hk : kstrtoint buf 0 with
    | ok n =>
      rw [active_low_store_of_parse data buf size n hk]
      exact Or.inl rfl
    | error e =>
      rw [active_low_store_of_error data buf size e hk]
      exact Or.inr ⟨kstrtoint_error_neg _ _ _ hk, rfl⟩

/-- Beyond the range of `ssize_t` the size returned by a successful store reads as
a negative number: `direction_store` of `high` with `size = 2 ^ 64 - 22` changes
the pin and returns -22. -/
theorem direction_store_size_wraps :
    direction_store (default_pin 0) (lit "high") 18446744073709551594
      = (-22, { default_pin 0 with direction := 1, value := 1 }) := by
  decide

/-- C6: each of `direction_store`, `value_store`, `edge_store` and
`active_low_store`, on every pin state and input, either returns `size` as an
`ssize_t` or returns a negative status and leaves the pin exactly as it was; hence
for every `size` below `2 ^ 63` (every size that is a byte count as an `ssize_t`;
sysfs passes at most a page) a store that returns an error (a negative status)
leaves the pin exactly as it was, and one that does not returns `size`. -/
theorem store_atomic (data : vgpiod_data) (buf : List Nat) (size : Nat) :
    (((direction_store data buf size).1 = to_ssize size ∨
        ((direction_store data buf size).1 < 0 ∧ (direction_store data buf size).2 = data)) ∧
      ((value_store data buf size).1 = to_ssize size ∨
        ((value_store data buf size).1 < 0 ∧ (value_store data buf size).2 = data)) ∧
      ((edge_store data buf size).1 = to_ssize size ∨
        ((edge_store data buf size).1 < 0 ∧ (edge_store data buf size).2 = data)) ∧
      ((active_low_store data buf size).1 = to_ssize size ∨
        ((active_low_store data buf size).1 < 0 ∧
          (active_low_store data buf size).2 = data))) ∧
    (size < 2 ^ 63 →
      (((direction_store data buf size).1 < 0 → (direction_store data buf size).2 = data) ∧
        (¬ (direction_store data buf size).1 < 0 →
          (direction_store data buf size).1 = (size : Int))) ∧
      (((value_store data buf size).1 < 0 → (value_store data buf size).2 = data) ∧
        (¬ (value_store data buf size).1 < 0 →
          (value_store data buf size).1 = (size : Int))) ∧
      (((edge_store data buf size).1 < 0 → (edge_store data buf size).2 = data) ∧
        (¬ (edge_store data buf size).1 < 0 →
          (edge_store data buf size).1 = (size : Int))) ∧
      (((active_low_store data buf size).1 < 0 → (active_low_store data buf size).2 = data) ∧
        (¬ (active_low_store data buf size).1 < 0 →
          (active_low_store data buf size).1 = (size : Int)))) := by
  have ho := store_outcome data buf size
  refine ⟨ho, ?_⟩
  intro hs
  have hz : to_ssize size = (size : Int) := to_ssize_of_lt size hs
  have hsz : ¬ ((size : Int) < 0) := by omega
  have key : ∀ r : Int × vgpiod_data,
      (r.1 = to_ssize size ∨ (r.1 < 0 ∧ r.2 = data)) →
      (r.1 < 0 → r.2 = data) ∧ (¬ r.1 < 0 → r.1 = (size : Int)) := by
    intro r h
    rcases h with h | h
    · rw [hz] at h
      exact ⟨fun hn => absurd (h ▸ hn) hsz, fun _ => h⟩
    · exact ⟨fun _ => h.2, fun hn => absurd h.1 hn⟩
  exact ⟨key _ ho.1, key _ ho.2.1, key _ ho.2.2.1, key _ ho.2.2.2⟩

/-- Witness of C6: the unparsable one-byte write `x` to `value` fails and changes
nothing. -/
theorem store_atomic_witness :
    (1 : Nat) < 2 ^ 63 ∧
    (value_store (default_pin 3) (lit "x") 1).1 < 0 ∧
    (value_store (default_pin 3) (lit "x") 1).2 = default_pin 3 :=
  ⟨by decide, by decide,
   ((store_atomic (default_pin 3) (lit "x") 1).2 (by decide)).2.1.1 (by decide)⟩

/-! ## Registry lemmas -/

theorem gpio_name_eq (id : Int) : gpio_name id = 103 :: 112 :: 105 :: 111 :: fmt_d id := by
  have h : lit "gpio" = [103, 112, 105, 111] := by decide
  simp [gpio_name, h]

/-- A pin name is never one of the two control names. -/
theorem gpio_name_not_reserved (id : Int) :
    gpio_name id ≠ lit "export" ∧ gpio_name id ≠ lit "unexport" := by
  have h1 : lit "export" = [101, 120, 112, 111, 114, 116] := by decide
  have h2 : lit "unexport" = [117, 110, 101, 120, 112, 111, 114, 116] := by decide
  rw [gpio_name_eq, h1, h2]
  constructor <;> intro h <;> simp at h

theorem kset_find_obj_cons (d : vgpiod_data) (k : kset) (name : List Nat) :
    kset_find_obj (d :: k) name
      = if d.kobj_name = name then (some 0, { d with kref := d.kref + 1 } :: k)
        else ((kset_find_obj k name).1.map (fun i => i + 1), d :: (kset_find_obj k name).2) := by
  unfold kset_find_obj
  by_cases h : d.kobj_name = name
  · simp [List.findIdx?_cons, h]
  · simp only [List.findIdx?_cons, h, decide_False, if_false, Bool.false_eq_true, zero_add]
    rw [List.findIdx?_succ]
    cases List.findIdx? (fun d => decide (d.kobj_name = name)) k 0 <;> simp

theorem kobject_put_cons_succ (d : vgpiod_data) (k : kset) (i : Nat) :
    kobject_put (d :: k) (i + 1) = d :: kobject_put k i := by
  unfold kobject_put
  simp only [List.get?_cons_succ]
  cases k.get? i with
  | none => rfl
  | some e => simp only; split_ifs <;> simp

theorem kobject_put_cons_zero (d : vgpiod_data) (k : kset) :
    kobject_put (d :: k) 0
      = if d.kref - 1 = 0 then k else { d with kref := d.kref - 1 } :: k := by
  unfold kobject_put
  simp only [List.get?_cons_zero]
  split_ifs <;> simp

/-- Unexporting looks at the head of the list first. -/
theorem vgpiod_unexport_cons (d : vgpiod_data) (k : kset) (id : Int) :
    vgpiod_unexport (d :: k) id
      = if d.kobj_name = gpio_name id then
          kobject_put (kobject_put ({ d with kref := d.kref + 1 } :: k) 0) 0
        else d :: vgpiod_unexport k id := by
  unfold vgpiod_unexport
  rw [kset_find_obj_cons]
  by_cases h : d.kobj_name = gpio_name id
  · simp [h]
  · simp only [h, if_false]
    rcases hk : kset_find_obj k (gpio_name id) with ⟨r, k1⟩
    cases r with
    | none => simp
    | some i => simp [kobject_put_cons_succ]

/-- On a registry whose pins are referenced by their entries only, unexporting
removes the first entry carrying the name. -/
theorem vgpiod_unexport_eq_eraseP (k : kset) (id : Int) (h : ∀ d ∈ k, d.kref = 1) :
    vgpiod_unexport k id = k.eraseP (fun d => decide (d.kobj_name = gpio_name id)) := by
  induction k with
  | nil => rfl
  | cons d k ih =>
    rw [vgpiod_unexport_cons]
    have hd : d.kref = 1 := h d (by simp)
    by_cases hn : d.kobj_name = gpio_name id
    · simp [hn, kobject_put_cons_zero, hd]
    · simp [hn, ih (fun e he => h e (by simp [he]))]

/-- Unexporting an id without entry changes nothing. -/
theorem vgpiod_unexport_absent (k : kset) (id : Int) (h : find_pin k id = none) :
    vgpiod_unexport k id = k := by
  induction k with
  | nil => rfl
  | cons d k ih =>
    rw [vgpiod_unexport_cons]
    unfold find_pin at h ih
    rw [List.find?_cons] at h
    by_cases hn : d.kobj_name = gpio_name id
    · simp [hn] at h
    · simp only [hn, decide_False] at h
      simp [hn, ih h]

/-- With unique names, removing the first entry of a name leaves none of that name. -/
theorem find_pin_eraseP (k : kset) (id : Int) (h : (k.map (fun d => d.kobj_name)).Nodup) :
    find_pin (k.eraseP (fun d => decide (d.kobj_name = gpio_name id))) id = none := by
  induction k with
  | nil => rfl
  | cons d k ih =>
    rw [List.map_cons, List.nodup_cons] at h
    by_cases hn : d.kobj_name = gpio_name id
    · rw [List.eraseP_cons_of_pos (by simpa using hn)]
      unfold find_pin
      rw [List.find?_eq_none]
      intro x hx hp
      have hx2 : x.kobj_name = gpio_name id := by simpa using hp
      exact h.1 (by rw [hn, ← hx2]; exact List.mem_map_of_mem _ hx)
    · rw [List.eraseP_cons_of_neg (by simpa using hn)]
      have := ih h.2
      unfold find_pin at this ⊢
      rw [List.find?_cons]
      simp [hn, this]

/-- Exporting an id without entry appends a fresh pin in its default state. -/
theorem vgpiod_export_absent (k : kset) (id : Int) (h : find_pin k id = none) :
    vgpiod_export k true id = (0, k ++ [default_pin id]) := by
  have hn : gpio_name id ∉ dir_names k := by
    unfold find_pin at h
    rw [List.find?_eq_none] at h
    have hr := gpio_name_not_reserved id
    simp only [dir_names, List.mem_cons, List.mem_map, not_or, not_exists, not_and]
    refine ⟨hr.1, hr.2, ?_⟩
    intro x hx hxn
    exact h x hx (by simpa using hxn)
  simp [vgpiod_export, kobject_init_and_add, hn, default_pin]

/-- Exporting an id that has an entry fails and changes nothing. -/
theorem vgpiod_export_present (k : kset) (id : Int) (p : vgpiod_data)
    (h : find_pin k id = some p) : vgpiod_export k true id = (-EEXIST, k) := by
  have hn : gpio_name id ∈ dir_names k := by
    unfold find_pin at h
    have hm := List.mem_of_find?_eq_some h
    have hp := List.find?_some h
    simp only [dir_names, List.mem_cons, List.mem_map]
    exact Or.inr (Or.inr ⟨p, hm, by simpa using hp⟩)
  simp [vgpiod_export, kobject_init_and_add, hn]

/-- After a successful export the new pin is the one found under its name. -/
theorem find_pin_append_default (k : kset) (id : Int) (h : find_pin k id = none) :
    find_pin (k ++ [default_pin id]) id = some (default_pin id) := by
  unfold find_pin at h ⊢
  rw [List.find?_append, h]
  simp [default_pin]

/-! ## Export and unexport -/

/-- C7: when `gpio<id>` has an entry, `vgpiod_export` (memory being available)
fails with `-EEXIST` and returns the registry it was given, so the entries are the
same and the pin found under the name is the same pin in the same state; the
`export` endpoint reports that status; and whether or not memory is available the
export fails and the registry is the one given. -/
theorem export_existing (k : kset) (id : Int) (p : vgpiod_data)
    (h : find_pin k id = some p) :
    vgpiod_export k true id = (-EEXIST, k) ∧
    find_pin (vgpiod_export k true id).2 id = some p ∧
    (∀ kzalloc_ok : Bool,
      (vgpiod_export k kzalloc_ok id).1 < 0 ∧ (vgpiod_export k kzalloc_ok id).2 = k) ∧
    (∀ (buf : List Nat) (size : Nat), kstrtoint buf 0 = .ok id → 0 ≤ id →
      export_store k true buf size = (-EEXIST, k)) := by
  have he := vgpiod_export_present k id p h
  refine ⟨he, by rw [he]; exact h, ?_, ?_⟩
  · intro kzalloc_ok
    cases kzalloc_ok with
    | true => rw [he]; exact ⟨show (-EEXIST : Int) < 0 by decide, rfl⟩
    | false => exact ⟨show (-ENOMEM : Int) < 0 by decide, rfl⟩
  intro buf size hk hid
  have hneg : ¬ id < 0 := by omega
  unfold export_store
  rw [hk]
  simp only [hneg, if_false, he]
  simp [EEXIST]

/-- Witness of C7: exporting 7 a second time in the scenario registry. -/
theorem export_existing_witness :
    find_pin scenario7 7
      = some { default_pin 7 with direction := 1, value := 1, active_low := 1 } ∧
    vgpiod_export scenario7 true 7 = (-EEXIST, scenario7) :=
  ⟨by decide,
   (export_existing scenario7 7
      { default_pin 7 with direction := 1, value := 1, active_low := 1 } (by decide)).1⟩

/-- C8: on a registry at rest, `unexport(id)` followed by `export(id)` (memory
being available) succeeds and the pin then found under `gpio<id>` is in the default
state: direction 0 (in), value 0, edge 0 (none), active_low 0; `value_show` on it
returns `0` and a newline. -/
theorem unexport_then_export_default (k : kset) (id : Int) (h : registry_ok k) :
    vgpiod_export (vgpiod_unexport k id) true id
      = (0, vgpiod_unexport k id ++ [default_pin id]) ∧
    find_pin (vgpiod_export (vgpiod_unexport k id) true id).2 id = some (default_pin id) ∧
    (default_pin id).direction = 0 ∧ (default_pin id).value = 0 ∧
    (default_pin id).edge = 0 ∧ (default_pin id).active_low = 0 ∧
    value_show (default_pin id) = (2, lit "0\n") := by
  have hab : find_pin (vgpiod_unexport k id) id = none := by
    rw [vgpiod_unexport_eq_eraseP k id h.2]
    exact find_pin_eraseP k id h.1
  have he := vgpiod_export_absent _ id hab
  refine ⟨he, ?_, rfl, rfl, rfl, rfl, ?_⟩
  · rw [he]
    exact find_pin_append_default _ id hab
  · simp [value_show, default_pin]
    decide

/-- Witness of C8: the scenario export(7), direction `out`, value `1`, active_low
`1`, unexport(7), export(7), value show. -/
theorem unexport_then_export_default_witness :
    registry_ok scenario7 ∧
    find_pin scenario7 7
      = some { default_pin 7 with direction := 1, value := 1, active_low := 1 } ∧
    find_pin (vgpiod_export (vgpiod_unexport scenario7 7) true 7).2 7
      = some (default_pin 7) ∧
    value_show (default_pin 7) = (2, lit "0\n") :=
  ⟨⟨by decide, by decide⟩, by decide,
   (unexport_then_export_default scenario7 7 ⟨by decide, by decide⟩).2.1,
   (unexport_then_export_default scenario7 7 ⟨by decide, by decide⟩).2.2.2.2.2.2⟩

/-- C9: when `gpio<id>` has no entry, `vgpiod_unexport` returns the registry it was
given and the `unexport` endpoint reports success (`size`) for a non-negative id;
on a registry at rest, unexporting twice gives the same registry as unexporting
once. The size is
returned as an `ssize_t`, which is the size itself below `2 ^ 63`. -/
theorem unexport_absent_noop (k : kset) (id : Int) :
    (∀ size : Nat, size < 2 ^ 63 → to_ssize size = (size : Int)) ∧
    (find_pin k id = none →
      vgpiod_unexport k id = k ∧
      ∀ (buf : List Nat) (size : Nat), kstrtoint buf 0 = .ok id → 0 ≤ id →
        unexport_store k buf size = (to_ssize size, k)) ∧
    (registry_ok k →
      vgpiod_unexport (vgpiod_unexport k id) id = vgpiod_unexport k id) := by
  refine ⟨fun size hs => to_ssize_of_lt size hs, ?_⟩
  refine ⟨?_, ?_⟩
  · intro h
    have hu := vgpiod_unexport_absent k id h
    refine ⟨hu, ?_⟩
    intro buf size hk hid
    have hneg : ¬ id < 0 := by omega
    unfold unexport_store
    rw [hk]
    simp only [hneg, if_false, hu]
  · intro h
    apply vgpiod_unexport_absent
    rw [vgpiod_unexport_eq_eraseP k id h.2]
    exact find_pin_eraseP k id h.1

/-- Witness of C9: unexporting 8, which the scenario registry does not hold, and
unexporting 7 twice. -/
theorem unexport_absent_noop_witness :
    (find_pin scenario7 8 = none ∧ vgpiod_unexport scenario7 8 = scenario7) ∧
    (registry_ok scenario7 ∧
      vgpiod_unexport (vgpiod_unexport scenario7 7) 7 = vgpiod_unexport scenario7 7) :=
  ⟨⟨by decide, ((unexport_absent_noop scenario7 8).2.1 (by decide)).1⟩,
   ⟨⟨by decide, by decide⟩, (unexport_absent_noop scenario7 7).2.2 ⟨by decide, by decide⟩⟩⟩

/-- C10: for an input that parses to a negative integer, `export_store` returns
`-EINVAL` and the registry it was given, whether or not memory is available (no
allocation is attempted); for an input that parses to a non-negative id without
entry, it returns `size` (memory being available) and the registry gains exactly
one entry, the default pin named `gpio<id>`, appended to the others. The size is
returned as an `ssize_t`, which is the size itself below `2 ^ 63`. -/
theorem export_store_spec (k : kset) (buf : List Nat) (size : Nat) (id : Int)
    (h : kstrtoint buf 0 = .ok id) :
    (size < 2 ^ 63 → to_ssize size = (size : Int)) ∧
    (id < 0 → ∀ kzalloc_ok : Bool, export_store k kzalloc_ok buf size = (-EINVAL, k)) ∧
    (0 ≤ id → find_pin k id = none →
      export_store k true buf size = (to_ssize size, k ++ [default_pin id]) ∧
      find_pin (k ++ [default_pin id]) id = some (default_pin id)) := by
  refine ⟨fun hs => to_ssize_of_lt size hs, ?_⟩
  refine ⟨?_, ?_⟩
  · intro hneg kzalloc_ok
    unfold export_store
    rw [h]
    simp only [hneg, if_true]
  · intro hid hab
    have hneg : ¬ id < 0 := by omega
    refine ⟨?_, find_pin_append_default k id hab⟩
    unfold export_store
    rw [h]
    simp only [hneg, if_false, vgpiod_export_absent k id hab]
    simp

/-- Witness of C10: the write `-1` to `export` on the scenario registry. -/
theorem export_store_spec_witness :
    kstrtoint (lit "-1") 0 = .ok (-1) ∧ (-1 : Int) < 0 ∧
    export_store scenario7 false (lit "-1") 2 = (-EINVAL, scenario7) :=
  ⟨by decide, by decide,
   (export_store_spec scenario7 (lit "-1") 2 (-1) (by decide)).2.1 (by decide) false⟩

/-! ## Invariants of the pin -/

/-- What `direction_store` leaves alone. -/
theorem direction_store_frame (d : vgpiod_data) (buf : List Nat) (size : Nat) :
    (direction_store d buf size).2.edge = d.edge ∧
    (direction_store d buf size).2.active_low = d.active_low := by
  simp only [direction_store]
  split_ifs <;> simp

/-- What `value_store` leaves alone. -/
theorem value_store_frame (d : vgpiod_data) (buf : List Nat) (size : Nat) :
    (value_store d buf size).2.edge = d.edge ∧
    (value_store d buf size).2.active_low = d.active_low ∧
    (value_store d buf size).2.direction = d.direction := by
  cases hp : (if size ≤ 2 ∧ isdigit (at_ buf 0) = true ∧ (size = 1 ∨ at_ buf 1 = 10) then
      Except.ok ((at_ buf 0 : Int) - 48) else kstrtoint buf 0) with
  | ok n => rw [value_store_of_parse d buf size n hp]; exact ⟨rfl, rfl, rfl⟩
  | error e => rw [value_store_of_error d buf size e hp]; exact ⟨rfl, rfl, rfl⟩

/-- The flags of the table are 0, 1, 2 and 3. -/
theorem trigger_types_flags (t : List Nat × Nat) (h : t ∈ trigger_types) :
    (t.2 : Int) = 0 ∨ (t.2 : Int) = 1 ∨ (t.2 : Int) = 2 ∨ (t.2 : Int) = 3 := by
  simp only [trigger_types, List.mem_cons, List.mem_singleton, List.not_mem_nil, or_false] at h
  rcases h with h | h | h | h <;> subst h
  · exact Or.inl rfl
  · exact Or.inr (Or.inl rfl)
  · exact Or.inr (Or.inr (Or.inl rfl))
  · exact Or.inr (Or.inr (Or.inr rfl))

/-- The function `edge_store` keeps the polarity and stores a flag of the table or
nothing. -/
theorem edge_store_frame (d : vgpiod_data) (buf : List Nat) (size : Nat) :
    (edge_store d buf size).2.active_low = d.active_low ∧
    ((edge_store d buf size).2.edge = d.edge ∨ (edge_store d buf size).2.edge = 0 ∨
      (edge_store d buf size).2.edge = 1 ∨ (edge_store d buf size).2.edge = 2 ∨
      (edge_store d buf size).2.edge = 3) := by
  cases hf : trigger_types.find? (fun t => sysfs_streq t.1 buf) with
  | none =>
    have : edge_store d buf size = (-EINVAL, d) := by unfold edge_store; rw [hf]
    rw [this]; exact ⟨rfl, Or.inl rfl⟩
  | some t =>
    rw [edge_store_of_find d buf size t hf]
    exact ⟨rfl, Or.inr (trigger_types_flags t (List.mem_of_find?_eq_some hf))⟩

/-- The function `active_low_store` keeps the edge and stores 0, 1 or nothing. -/
theorem active_low_store_frame (d : vgpiod_data) (buf : List Nat) (size : Nat) :
    (active_low_store d buf size).2.edge = d.edge ∧
    ((active_low_store d buf size).2.active_low = d.active_low ∨
      (active_low_store d buf size).2.active_low = 0 ∨
      (active_low_store d buf size).2.active_low = 1) := by
  cases hk : kstrtoint buf 0 with
  | ok n =>
    rw [active_low_store_of_parse d buf size n hk]
    refine ⟨rfl, Or.inr ?_⟩
    by_cases hn : n = 0 <;> simp [lnot, hn]
  | error e =>
    rw [active_low_store_of_error d buf size e hk]
    exact ⟨rfl, Or.inl rfl⟩

/-- Every store keeps the invariant of the pin. -/
theorem vgpiod_attr_store_inv (d : vgpiod_data) (attr : vgpiod_attribute) (buf : List Nat)
    (size : Nat) (h : pin_inv d) : pin_inv (vgpiod_attr_store d attr buf size).2 := by
  unfold pin_inv at h ⊢
  cases attr with
  | vgpiod_direction_attr =>
    have f := direction_store_frame d buf size
    simp only [vgpiod_attr_store, f.1, f.2]; exact h
  | vgpiod_value_attr =>
    have f := value_store_frame d buf size
    simp only [vgpiod_attr_store, f.1, f.2.1]; exact h
  | vgpiod_edge_attr =>
    have f := edge_store_frame d buf size
    simp only [vgpiod_attr_store, f.1]
    refine ⟨?_, h.2⟩
    rcases f.2 with e | e
    · rw [e]; exact h.1
    · exact e
  | vgpiod_active_low_attr =>
    have f := active_low_store_frame d buf size
    simp only [vgpiod_attr_store, f.1]
    refine ⟨h.1, ?_⟩
    rcases f.2 with e | e
    · rw [e]; exact h.2
    · exact e

/-- Every sequence of stores keeps the invariant of the pin. -/
theorem run_stores_inv (ops : List (vgpiod_attribute × List Nat × Nat)) (d : vgpiod_data)
    (h : pin_inv d) : pin_inv (run_stores ops d) := by
  induction ops generalizing d with
  | nil => exact h
  | cons op ops ih =>
    simp only [run_stores, List.foldl_cons]
    exact ih _ (vgpiod_attr_store_inv d op.1 op.2.1 op.2.2 h)

/-- The default state satisfies the invariant of the pin. -/
theorem default_pin_inv (gpio : Int) : pin_inv (default_pin gpio) :=
  ⟨Or.inl rfl, Or.inl rfl⟩

/-- C11: on an input that `kstrtoint` parses to `n`, `active_low_store` returns
`size`, sets `active_low` to 0 if `n` is zero and to 1 otherwise, and keeps every
other field (value, direction and edge among them); and in every state reached from
the default state by a sequence of stores, `active_low_show` returns 2 and prints
`0` or `1` followed by a newline. The size is
returned as an `ssize_t`, which is the size itself below `2 ^ 63`. -/
theorem active_low_spec (data : vgpiod_data) (buf : List Nat) (size : Nat) (n : Int)
    (gpio : Int) (ops : List (vgpiod_attribute × List Nat × Nat)) :
    (size < 2 ^ 63 → to_ssize size = (size : Int)) ∧
    (kstrtoint buf 0 = .ok n →
      active_low_store data buf size
        = (to_ssize size, { data with active_low := if n = 0 then 0 else 1 }) ∧
      (active_low_store data buf size).2.value = data.value ∧
      (active_low_store data buf size).2.direction = data.direction ∧
      (active_low_store data buf size).2.edge = data.edge) ∧
    (active_low_show (run_stores ops (default_pin gpio)) = (2, lit "0\n") ∨
      active_low_show (run_stores ops (default_pin gpio)) = (2, lit "1\n")) := by
  refine ⟨fun hs => to_ssize_of_lt size hs, ?_⟩
  refine ⟨?_, ?_⟩
  · intro h
    have e := active_low_store_of_parse data buf size n h
    have hl : lnot (lnot n) = if n = 0 then 0 else 1 := by
      by_cases hn : n = 0 <;> simp [lnot, hn]
    rw [hl] at e
    rw [e]
    exact ⟨rfl, rfl, rfl, rfl⟩
  · have hi := (run_stores_inv ops (default_pin gpio) (default_pin_inv gpio)).2
    rcases hi with h | h
    · left
      unfold active_low_show
      rw [h]
      decide
    · right
      unfold active_low_show
      rw [h]
      decide

/-- Witness of C11: the write `0x10` to `active_low` of a pin holding the value 5. -/
theorem active_low_spec_witness :
    kstrtoint (lit "0x10") 0 = .ok 16 ∧
    active_low_store { default_pin 3 with value := 5 } (lit "0x10") 4
      = (to_ssize 4,
         { ({ default_pin 3 with value := 5 } : vgpiod_data) with
           active_low := if (16 : Int) = 0 then 0 else 1 }) :=
  ⟨by decide,
   ((active_low_spec { default_pin 3 with value := 5 } (lit "0x10") 4 16 0 []).2.1
      (by decide)).1⟩

/-- C16: in every state reached from the default state by a sequence of
direction, value, edge and active_low stores, whatever each returns, the stored
edge is 0, 1, 2 or 3, and `edge_show` prints one of the four names followed by a
newline, returning its nonzero length. -/
theorem edge_invariant (gpio : Int) (ops : List (vgpiod_attribute × List Nat × Nat)) :
    ((run_stores ops (default_pin gpio)).edge = 0 ∨
      (run_stores ops (default_pin gpio)).edge = 1 ∨
      (run_stores ops (default_pin gpio)).edge = 2 ∨
      (run_stores ops (default_pin gpio)).edge = 3) ∧
    (edge_show (run_stores ops (default_pin gpio)) = (5, lit "none\n") ∨
      edge_show (run_stores ops (default_pin gpio)) = (8, lit "falling\n") ∨
      edge_show (run_stores ops (default_pin gpio)) = (7, lit "rising\n") ∨
      edge_show (run_stores ops (default_pin gpio)) = (5, lit "both\n")) ∧
    (edge_show (run_stores ops (default_pin gpio))).1 ≠ 0 := by
  have hi := (run_stores_inv ops (default_pin gpio) (default_pin_inv gpio)).1
  have h4 : edge_show (run_stores ops (default_pin gpio)) = (5, lit "none\n") ∨
      edge_show (run_stores ops (default_pin gpio)) = (8, lit "falling\n") ∨
      edge_show (run_stores ops (default_pin gpio)) = (7, lit "rising\n") ∨
      edge_show (run_stores ops (default_pin gpio)) = (5, lit "both\n") := by
    rcases hi with h | h | h | h
    · exact Or.inl (edge_show_of_edge _ 0 (lit "none", 0) h (by decide))
    · exact Or.inr (Or.inl
        (edge_show_of_edge _ 1 (lit "falling", GPIO_IRQF_TRIGGER_FALLING) h (by decide)))
    · exact Or.inr (Or.inr (Or.inl
        (edge_show_of_edge _ 2 (lit "rising", GPIO_IRQF_TRIGGER_RISING) h (by decide))))
    · exact Or.inr (Or.inr (Or.inr
        (edge_show_of_edge _ 3 (lit "both", GPIO_IRQF_TRIGGER_BOTH) h (by decide))))
  refine ⟨hi, h4, ?_⟩
  rcases h4 with h | h | h | h <;> rw [h] <;> decide

/-! ## The documented meaning of `out` -/

/-- C13, the code at the failing input: on a pin driven high, writing `out` to
`direction` returns 3 and keeps the value 1, whereas writing `low` stores 0. -/
theorem direction_out_keeps_value :
    (direction_store (default_pin 0) (lit "high") 4).2.value = 1 ∧
    direction_store (direction_store (default_pin 0) (lit "high") 4).2 (lit "out") 3
      = (3, { default_pin 0 with direction := 1, value := 1 }) ∧
    (direction_store (direction_store (default_pin 0) (lit "high") 4).2 (lit "out") 3).2.value
      ≠ 0 ∧
    (direction_store (direction_store (default_pin 0) (lit "high") 4).2 (lit "low") 3).2.value
      = 0 := by
  decide

/-! ## Error codes of the integer stores -/

/-- Counterexample to C14 as stated: the numeric input 2147483648 does not fit an
`int`, and both `value_store` (off the fast path) and `active_low_store` return
`-ERANGE`, which is not `-EINVAL`. -/
theorem store_out_of_range :
    kstrtoint (lit "2147483648") 0 = .error (-ERANGE) ∧
    value_store (default_pin 0) (lit "2147483648") 10 = (-ERANGE, default_pin 0) ∧
    active_low_store (default_pin 0) (lit "2147483648") 10 = (-ERANGE, default_pin 0) ∧
    (-ERANGE : Int) ≠ -EINVAL := by
  decide

/-- C14, amended: when `kstrtoint` fails with status `e`, `value_store` (off the
fast path) and `active_low_store` return `e` and leave the pin as it was, and `e` is
`-EINVAL` or `-ERANGE`, no other code.  Both occur: `x` gives `-EINVAL`, the numeric
input 2147483648, which does not fit an `int`, gives `-ERANGE`, and so does
`99999999999999999999x`, whose digits overflow before the trailing byte is looked
at. -/
theorem store_error_code (data : vgpiod_data) (buf : List Nat) (size : Nat) (e : Int)
    (h : kstrtoint buf 0 = .error e) :
    (¬ (size ≤ 2 ∧ 48 ≤ at_ buf 0 ∧ at_ buf 0 ≤ 57 ∧ (size = 1 ∨ at_ buf 1 = 10)) →
      value_store data buf size = (e, data)) ∧
    active_low_store data buf size = (e, data) ∧
    (e = -EINVAL ∨ e = -ERANGE) ∧
    kstrtoint (lit "x") 0 = .error (-EINVAL) ∧
    kstrtoint (lit "2147483648") 0 = .error (-ERANGE) ∧
    kstrtoint (lit "99999999999999999999x") 0 = .error (-ERANGE) := by
  refine ⟨?_, active_low_store_of_error data buf size e h, kstrtoint_error buf 0 e h,
    by decide, by decide, by decide⟩
  intro hf
  have hc : ¬ (size ≤ 2 ∧ isdigit (at_ buf 0) = true ∧ (size = 1 ∨ at_ buf 1 = 10)) := by
    rintro ⟨h1, h2, h3⟩
    exact hf ⟨h1, ((isdigit_iff _).mp h2).1, ((isdigit_iff _).mp h2).2, h3⟩
  apply value_store_of_error
  rw [if_neg hc, h]

/-- Witness of C14: the malformed write `x` and its status `-EINVAL`. -/
theorem store_error_code_witness :
    kstrtoint (lit "x") 0 = .error (-EINVAL) ∧
    active_low_store (default_pin 3) (lit "x") 1 = (-EINVAL, default_pin 3) :=
  ⟨by decide, (store_error_code (default_pin 3) (lit "x") 1 (-EINVAL) (by decide)).2.1⟩

/-! ## The logical value -/

/-- C19: from every pin state, after `value_store` of the single byte `0` or `1`
(which returns 1) `value_show` prints that digit and a newline, whatever the
polarity and the direction; and with `active_low` set, after `value_store` of any
input giving the integer `n`, `value_show` prints `0` if `n` is zero and `1`
otherwise. The size is
returned as an `ssize_t`, which is the size itself below `2 ^ 63`. -/
theorem value_round_trip (data : vgpiod_data) (buf : List Nat) (size : Nat) (n : Int) :
    (size < 2 ^ 63 → to_ssize size = (size : Int)) ∧
    (value_store data [48] 1).1 = 1 ∧
    value_show (value_store data [48] 1).2 = (2, lit "0\n") ∧
    (value_store data [49] 1).1 = 1 ∧
    value_show (value_store data [49] 1).2 = (2, lit "1\n") ∧
    (data.active_low ≠ 0 →
      (if size ≤ 2 ∧ isdigit (at_ buf 0) = true ∧ (size = 1 ∨ at_ buf 1 = 10) then
          Except.ok ((at_ buf 0 : Int) - 48)
        else kstrtoint buf 0) = .ok n →
      (value_store data buf size).1 = to_ssize size ∧
      value_show (value_store data buf size).2 = (2, [if n = 0 then 48 else 49, 10])) := by
  refine ⟨fun hs => to_ssize_of_lt size hs, ?_⟩
  have h0 : value_store data [48] 1
      = (to_ssize 1, { data with value := if data.active_low ≠ 0 then lnot 0 else 0 }) :=
    value_store_of_parse data [48] 1 0 (by decide)
  have h1 : value_store data [49] 1
      = (to_ssize 1, { data with value := if data.active_low ≠ 0 then lnot 1 else 1 }) :=
    value_store_of_parse data [49] 1 1 (by decide)
  have e0 : lit "0\n" = [48, 10] := by decide
  have e1 : lit "1\n" = [49, 10] := by decide
  refine ⟨by rw [h0]; rfl, ?_, by rw [h1]; rfl, ?_, ?_⟩
  · rw [h0, e0]
    by_cases ha : data.active_low = 0 <;> simp [value_show, ha, lnot]
  · rw [h1, e1]
    by_cases ha : data.active_low = 0 <;> simp [value_show, ha, lnot]
  · intro ha hp
    rw [value_store_of_parse data buf size n hp]
    refine ⟨rfl, ?_⟩
    by_cases hn : n = 0 <;> simp [value_show, ha, lnot, hn]

/-- Witness of C19: with `active_low` set, the write `0x10` is shown as `1`. -/
theorem value_round_trip_witness :
    ({ default_pin 3 with active_low := 1 } : vgpiod_data).active_low ≠ 0 ∧
    value_show (value_store { default_pin 3 with active_low := 1 } (lit "0x10") 4).2
      = (2, [if (16 : Int) = 0 then 48 else 49, 10]) :=
  ⟨by decide,
   ((value_round_trip { default_pin 3 with active_low := 1 } (lit "0x10") 4 16).2.2.2.2.2
      (by decide) (by decide)).2⟩

/-! ## Decimal formatting -/

/-- With enough fuel the loop prepends the digits of `n` to the accumulator, and
the digits do not depend on the fuel. -/
theorem fmt_u_loop_append (n : Nat) :
    ∀ (fuel1 fuel2 : Nat) (acc : List Nat), n < fuel1 → n < fuel2 →
      fmt_u_loop fuel1 n acc = fmt_u_loop fuel2 n [] ++ acc := by
  induction n using Nat.strong_induction_on with
  | _ n ih =>
    intro fuel1 fuel2 acc h1 h2
    obtain ⟨f, rfl⟩ : ∃ f, fuel1 = f + 1 := ⟨fuel1 - 1, by omega⟩
    obtain ⟨g, rfl⟩ : ∃ g, fuel2 = g + 1 := ⟨fuel2 - 1, by omega⟩
    by_cases hn : n < 10
    · simp [fmt_u_loop, hn]
    · have hq : n / 10 < n := by omega
      simp only [fmt_u_loop, hn, if_false]
      rw [ih (n / 10) hq f g _ (by omega) (by omega),
        ih (n / 10) hq g g [48 + n % 10] (by omega) (by omega)]
      simp

/-- The digits of a number: one digit below ten, otherwise the digits of the
quotient by ten followed by the last digit. -/
theorem fmt_u_rec (n : Nat) :
    fmt_u n = if n < 10 then [48 + n] else fmt_u (n / 10) ++ [48 + n % 10] := by
  by_cases hn : n < 10
  · simp [fmt_u, fmt_u_loop, hn]
  · have hq : n / 10 < n := by omega
    simp only [hn, if_false]
    unfold fmt_u
    simp only [fmt_u_loop, hn, if_false]
    exact fmt_u_loop_append (n / 10) n (n / 10 + 1) _ hq (by omega)

theorem fmt_u_ne_nil (n : Nat) : fmt_u n ≠ [] := by
  rw [fmt_u_rec]
  split_ifs <;> simp

/-- Every byte printed for a number is an ASCII decimal digit. -/
theorem fmt_u_digits (n : Nat) : ∀ c ∈ fmt_u n, 48 ≤ c ∧ c ≤ 57 := by
  induction n using Nat.strong_induction_on with
  | _ n ih =>
    intro c hc
    rw [fmt_u_rec] at hc
    by_cases hn : n < 10
    · simp only [hn, if_true, List.mem_singleton] at hc
      omega
    · simp only [hn, if_false, List.mem_append, List.mem_singleton] at hc
      rcases hc with hc | hc
      · exact ih (n / 10) (by omega) c hc
      · omega

/-- Distinct numbers are printed differently. -/
theorem fmt_u_inj (n : Nat) : ∀ m : Nat, fmt_u n = fmt_u m → n = m := by
  induction n using Nat.strong_induction_on with
  | _ n ih =>
    intro m h
    rw [fmt_u_rec n, fmt_u_rec m] at h
    by_cases hn : n < 10 <;> by_cases hm : m < 10
    · simp only [hn, hm, if_true, List.cons.injEq, and_true] at h
      omega
    · simp only [hn, hm, if_true, if_false] at h
      have hl := congrArg List.length h
      have hp : 0 < (fmt_u (m / 10)).length := List.length_pos.mpr (fmt_u_ne_nil _)
      simp only [List.length_append, List.length_singleton, List.length_cons,
        List.length_nil] at hl
      omega
    · simp only [hn, hm, if_true, if_false] at h
      have hl := congrArg List.length h
      have hp : 0 < (fmt_u (n / 10)).length := List.length_pos.mpr (fmt_u_ne_nil _)
      simp only [List.length_append, List.length_singleton, List.length_cons,
        List.length_nil] at hl
      omega
    · simp only [hn, hm, if_false] at h
      have h2 := List.append_inj' h (by simp)
      have hq := ih (n / 10) (by omega) (m / 10) h2.1
      have hr : 48 + n % 10 = 48 + m % 10 := by simpa using h2.2
      omega

/-- Distinct integers are printed differently. -/
theorem fmt_d_inj (a b : Int) (h : fmt_d a = fmt_d b) : a = b := by
  have hhead : ∀ n : Nat, (fmt_u n).head? ≠ some 45 := by
    intro n hh
    have hm : 45 ∈ fmt_u n := List.mem_of_mem_head? hh
    have := fmt_u_digits n 45 hm
    omega
  unfold fmt_d at h
  by_cases ha : a < 0 <;> by_cases hb : b < 0
  · simp only [ha, hb, if_true, List.cons.injEq, true_and] at h
    have := fmt_u_inj _ _ h
    omega
  · simp only [ha, hb, if_true, if_false] at h
    exact absurd (by rw [← h]; rfl) (hhead b.natAbs)
  · simp only [ha, hb, if_true, if_false] at h
    exact absurd (by rw [h]; rfl) (hhead a.natAbs)
  · simp only [ha, hb, if_false] at h
    have := fmt_u_inj _ _ h
    omega

/-- Distinct numbers give distinct pin names. -/
theorem gpio_name_inj (a b : Int) (h : gpio_name a = gpio_name b) : a = b := by
  unfold gpio_name at h
  exact fmt_d_inj a b (List.append_cancel_left h)

/-- A number below a power of ten has at most that many digits. -/
theorem fmt_u_length (d : Nat) : ∀ n : Nat, n < 10 ^ (d + 1) → (fmt_u n).length ≤ d + 1 := by
  induction d with
  | zero =>
    intro n hn
    rw [fmt_u_rec]
    have : n < 10 := by simpa using hn
    simp [this]
  | succ d ih =>
    intro n hn
    rw [fmt_u_rec]
    by_cases h : n < 10
    · simp [h]
    · simp only [h, if_false, List.length_append, List.length_singleton]
      have hq : n / 10 < 10 ^ (d + 1) := by
        rw [Nat.div_lt_iff_lt_mul (by decide)]
        calc n < 10 ^ (d + 1 + 1) := hn
          _ = 10 ^ (d + 1) * 10 := by ring
      have := ih (n / 10) hq
      omega

/-- C20: for every `gpio` in the range of a 32-bit `int`, the name `gpio%d` has at
most 15 bytes, none of them NUL, so that with its terminating NUL it takes at most
16 of the 32 bytes of `gpio_name`; the bound is reached at `INT_MIN`. -/
theorem gpio_name_fits (gpio : Int) (hlo : -2 ^ 31 ≤ gpio) (hhi : gpio < 2 ^ 31) :
    (gpio_name gpio).length ≤ 15 ∧
    (gpio_name gpio).length + 1 ≤ 32 ∧
    (∀ c ∈ gpio_name gpio, c ≠ 0) ∧
    (gpio_name (-2 ^ 31)).length = 15 := by
  have hu : (fmt_u gpio.natAbs).length ≤ 10 := fmt_u_length 9 _ (by omega)
  have hd : (fmt_d gpio).length ≤ 11 := by
    unfold fmt_d
    split_ifs
    · simp only [List.length_cons]; omega
    · omega
  have hl : (gpio_name gpio).length = 4 + (fmt_d gpio).length := by
    rw [gpio_name_eq]
    simp only [List.length_cons]
    omega
  refine ⟨by omega, by omega, ?_, by decide⟩
  intro c hc
  rw [gpio_name_eq] at hc
  simp only [List.mem_cons] at hc
  rcases hc with h | h | h | h | h
  · omega
  · omega
  · omega
  · omega
  · unfold fmt_d at h
    split_ifs at h
    · simp only [List.mem_cons] at h
      rcases h with h | h
      · omega
      · have := fmt_u_digits _ c h
        omega
    · have := fmt_u_digits _ c h
      omega

/-- Witness of C20: the name of GPIO 2147483647. -/
theorem gpio_name_fits_witness :
    (-2 ^ 31 : Int) ≤ 2147483647 ∧ (2147483647 : Int) < 2 ^ 31 ∧
    (gpio_name 2147483647).length ≤ 15 :=
  ⟨by decide, by decide, (gpio_name_fits 2147483647 (by decide) (by decide)).1⟩

/-! ## Independence of pins -/

/-- No store renames the kobject. -/
theorem vgpiod_attr_store_name (d : vgpiod_data) (attr : vgpiod_attribute) (buf : List Nat)
    (size : Nat) : (vgpiod_attr_store d attr buf size).2.kobj_name = d.kobj_name := by
  cases attr with
  | vgpiod_direction_attr =>
    simp only [vgpiod_attr_store, direction_store]
    split_ifs <;> rfl
  | vgpiod_value_attr =>
    simp only [vgpiod_attr_store]
    cases hp : (if size ≤ 2 ∧ isdigit (at_ buf 0) = true ∧ (size = 1 ∨ at_ buf 1 = 10) then
        Except.ok ((at_ buf 0 : Int) - 48) else kstrtoint buf 0) with
    | ok n => rw [value_store_of_parse d buf size n hp]
    | error e => rw [value_store_of_error d buf size e hp]
  | vgpiod_edge_attr =>
    simp only [vgpiod_attr_store, edge_store]
    split <;> rfl
  | vgpiod_active_low_attr =>
    simp only [vgpiod_attr_store]
    cases hk : kstrtoint buf 0 with
    | ok n => rw [active_low_store_of_parse d buf size n hk]
    | error e => rw [active_low_store_of_error d buf size e hk]

/-- A write to a file of one pin leaves the pin found under any other name as it
was. -/
theorem gpio_attr_write_other (k : kset) (i j : Int) (attr : vgpiod_attribute)
    (buf : List Nat) (size : Nat) (hij : gpio_name i ≠ gpio_name j) :
    ∀ r : Int × kset, gpio_attr_write k i attr buf size = some r →
      find_pin r.2 j = find_pin k j := by
  induction k with
  | nil => intro r h; simp [gpio_attr_write] at h
  | cons d k ih =>
    intro r h
    unfold gpio_attr_write at h
    by_cases hd : d.kobj_name = gpio_name i
    · simp only [hd, if_true, Option.some.injEq] at h
      subst h
      have hn := vgpiod_attr_store_name d attr buf size
      have h1 : ¬ (vgpiod_attr_store d attr buf size).2.kobj_name = gpio_name j := by
        rw [hn, hd]; exact hij
      have h2 : ¬ d.kobj_name = gpio_name j := by rw [hd]; exact hij
      simp [find_pin, List.find?_cons, h1, h2]
    · simp only [hd, if_false] at h
      cases hw : gpio_attr_write k i attr buf size with
      | none => rw [hw] at h; simp at h
      | some r1 =>
        rw [hw] at h
        simp only [Option.map_some', Option.some.injEq] at h
        subst h
        have := ih r1 hw
        unfold find_pin at this ⊢
        simp only [List.find?_cons]
        rw [this]

/-- A write to a file of a live pin reaches `vgpiod_attr_store` on that pin, and the
pin then found under the name is the one the store produced. -/
theorem gpio_attr_write_found (k : kset) (i : Int) (attr : vgpiod_attribute)
    (buf : List Nat) (size : Nat) :
    ∀ d : vgpiod_data, find_pin k i = some d →
      ∃ r : Int × kset, gpio_attr_write k i attr buf size = some r ∧
        r.1 = (vgpiod_attr_store d attr buf size).1 ∧
        find_pin r.2 i = some (vgpiod_attr_store d attr buf size).2 := by
  induction k with
  | nil => intro d h; simp [find_pin] at h
  | cons e k ih =>
    intro d h
    unfold find_pin at h
    rw [List.find?_cons] at h
    by_cases he : e.kobj_name = gpio_name i
    · simp only [he, decide_True, Option.some.injEq] at h
      subst h
      refine ⟨_, by unfold gpio_attr_write; rw [if_pos he], rfl, ?_⟩
      have hn := vgpiod_attr_store_name e attr buf size
      simp [find_pin, List.find?_cons, hn, he]
    · simp only [he, decide_False] at h
      obtain ⟨r, hr, h1, h2⟩ := ih d h
      refine ⟨(r.1, e :: r.2), by unfold gpio_attr_write; rw [if_neg he, hr]; rfl, h1, ?_⟩
      unfold find_pin at h2 ⊢
      simp only [List.find?_cons, he, decide_False]
      exact h2

/-- A successful export means that the name was free. -/
theorem vgpiod_export_ok (k : kset) (id : Int) (h : (vgpiod_export k true id).1 = 0) :
    find_pin k id = none := by
  cases hf : find_pin k id with
  | none => rfl
  | some p =>
    rw [vgpiod_export_present k id p hf] at h
    exact absurd h (show ¬ (-EEXIST : Int) = 0 by decide)

/-- C12: for `i ≠ j`, when `export(i)` and then `export(j)` succeed, both `gpio<i>`
and `gpio<j>` are found in the registry, in the default state; a read of an
attribute of pin `i` returns what `vgpiod_attr_show` gives on that pin; a write
reaches `vgpiod_attr_store` on pin `i` and leaves pin `j` as it was; and in any
registry a write to pin `i` leaves the pin found as `gpio<j>` unchanged. -/
theorem pin_independence (k : kset) (i j : Int) (hij : i ≠ j)
    (hi : (vgpiod_export k true i).1 = 0)
    (hj : (vgpiod_export (vgpiod_export k true i).2 true j).1 = 0) :
    find_pin (vgpiod_export (vgpiod_export k true i).2 true j).2 i = some (default_pin i) ∧
    find_pin (vgpiod_export (vgpiod_export k true i).2 true j).2 j = some (default_pin j) ∧
    (∀ attr : vgpiod_attribute,
      gpio_attr_read (vgpiod_export (vgpiod_export k true i).2 true j).2 i attr
        = some (vgpiod_attr_show (default_pin i) attr)) ∧
    (∀ (attr : vgpiod_attribute) (buf : List Nat) (size : Nat),
      ∃ r : Int × kset,
        gpio_attr_write (vgpiod_export (vgpiod_export k true i).2 true j).2 i attr buf size
          = some r ∧
        r.1 = (vgpiod_attr_store (default_pin i) attr buf size).1 ∧
        find_pin r.2 i = some (vgpiod_attr_store (default_pin i) attr buf size).2 ∧
        find_pin r.2 j = some (default_pin j)) ∧
    (∀ (k1 : kset) (attr : vgpiod_attribute) (buf : List Nat) (size : Nat) (r : Int × kset),
      gpio_attr_write k1 i attr buf size = some r → find_pin r.2 j = find_pin k1 j) := by
  have hn : gpio_name i ≠ gpio_name j := fun h => hij (gpio_name_inj i j h)
  have a1 := vgpiod_export_ok k i hi
  have e1 := vgpiod_export_absent k i a1
  rw [e1] at hj ⊢
  have a2 := vgpiod_export_ok _ j hj
  have e2 := vgpiod_export_absent _ j a2
  rw [e2]
  have f1 : find_pin (k ++ [default_pin i] ++ [default_pin j]) i = some (default_pin i) := by
    have := find_pin_append_default k i a1
    unfold find_pin at this ⊢
    rw [List.find?_append, this]
    rfl
  have f2 := find_pin_append_default _ j a2
  refine ⟨f1, f2, ?_, ?_, ?_⟩
  · intro attr
    unfold gpio_attr_read
    rw [f1]
    rfl
  · intro attr buf size
    obtain ⟨r, hr, h1, h2⟩ := gpio_attr_write_found _ i attr buf size _ f1
    refine ⟨r, hr, h1, h2, ?_⟩
    rw [gpio_attr_write_other _ i j attr buf size hn r hr]
    exact f2
  · intro k1 attr buf size r hr
    exact gpio_attr_write_other k1 i j attr buf size hn r hr

/-- Witness of C12: pins 3 and 4 exported into the empty registry. -/
theorem pin_independence_witness :
    (3 : Int) ≠ 4 ∧ (vgpiod_export [] true 3).1 = 0 ∧
    (vgpiod_export (vgpiod_export [] true 3).2 true 4).1 = 0 ∧
    find_pin (vgpiod_export (vgpiod_export [] true 3).2 true 4).2 3 = some (default_pin 3) :=
  ⟨by decide, by decide, by decide,
   (pin_independence [] 3 4 (by decide) (by decide) (by decide)).1⟩

/-! ## Full teardown -/

/-- One iteration of the scan looks at the head of the list first. -/
theorem unexport_all_step_cons (d : vgpiod_data) (k : kset) :
    unexport_all_step (d :: k)
      = if is_pin_entry d = true then some (kobject_put (d :: k) 0)
        else (unexport_all_step k).map (fun k1 => d :: k1) := by
  unfold unexport_all_step
  by_cases h : is_pin_entry d = true
  · simp [List.findIdx?_cons, h]
  · simp only [List.findIdx?_cons, h, if_false, Bool.false_eq_true, zero_add]
    rw [List.findIdx?_succ]
    cases List.findIdx? is_pin_entry k 0 with
    | none => rfl
    | some i => simp [kobject_put_cons_succ]

theorem kset_refs_cons (d : vgpiod_data) (k : kset) :
    kset_refs (d :: k) = d.kref + 1 + kset_refs k := by
  simp [kset_refs]

theorem length_le_kset_refs (k : kset) : k.length ≤ kset_refs k := by
  induction k with
  | nil => simp [kset_refs]
  | cons d k ih => rw [kset_refs_cons, List.length_cons]; omega

/-- The scan finds nothing exactly when no entry passes its test. -/
theorem unexport_all_step_none (k : kset) :
    unexport_all_step k = none ↔ ∀ d ∈ k, is_pin_entry d = false := by
  induction k with
  | nil => simp [unexport_all_step]
  | cons d k ih =>
    rw [unexport_all_step_cons]
    by_cases h : is_pin_entry d = true
    · simp [h]
    · simp only [h, if_false, Option.map_eq_none', ih, List.mem_cons, forall_eq_or_imp,
        Bool.false_eq_true]
      simp [h]

/-- Every iteration that puts an entry lowers the iteration bound. -/
theorem unexport_all_step_refs (k : kset) :
    ∀ k1 : kset, unexport_all_step k = some k1 → kset_refs k1 < kset_refs k := by
  induction k with
  | nil => intro k1 h; simp [unexport_all_step] at h
  | cons d k ih =>
    intro k1 h
    rw [unexport_all_step_cons] at h
    by_cases hp : is_pin_entry d = true
    · rw [if_pos hp] at h
      simp only [Option.some.injEq] at h
      subst h
      rw [kobject_put_cons_zero]
      split_ifs with hz
      · rw [kset_refs_cons]; omega
      · rw [kset_refs_cons, kset_refs_cons]
        simp only
        omega
    · rw [if_neg hp] at h
      cases hs : unexport_all_step k with
      | none => rw [hs] at h; simp at h
      | some k2 =>
        rw [hs] at h
        simp only [Option.map_some', Option.some.injEq] at h
        subst h
        have := ih k2 hs
        rw [kset_refs_cons, kset_refs_cons]
        omega

/-- With as many iterations allowed as the bound says, the loop reaches its
`break`. -/
theorem unexport_all_loop_terminates (fuel : Nat) :
    ∀ k : kset, kset_refs k < fuel →
      ∃ k1 : kset, unexport_all_loop fuel k = some k1 ∧ unexport_all_step k1 = none := by
  induction fuel with
  | zero => intro k h; omega
  | succ fuel ih =>
    intro k h
    cases hs : unexport_all_step k with
    | none => exact ⟨k, by simp [unexport_all_loop, hs], hs⟩
    | some k2 =>
      have hlt := unexport_all_step_refs k k2 hs
      obtain ⟨k1, h1, h2⟩ := ih k2 (by omega)
      exact ⟨k1, by simp [unexport_all_loop, hs, h1], h2⟩

/-- On a registry whose pins are referenced by their entries only, an iteration
removes the first entry that passes the test. -/
theorem unexport_all_step_rest (k : kset) (hk : ∀ d ∈ k, d.kref = 1) :
    ∀ k1 : kset, unexport_all_step k = some k1 → k1 = k.eraseP is_pin_entry := by
  induction k with
  | nil => intro k1 h; simp [unexport_all_step] at h
  | cons d k ih =>
    intro k1 h
    rw [unexport_all_step_cons] at h
    by_cases hp : is_pin_entry d = true
    · rw [if_pos hp] at h
      simp only [Option.some.injEq] at h
      subst h
      rw [kobject_put_cons_zero, List.eraseP_cons_of_pos hp]
      simp [hk d (by simp)]
    · rw [if_neg hp] at h
      cases hs : unexport_all_step k with
      | none => rw [hs] at h; simp at h
      | some k2 =>
        rw [hs] at h
        simp only [Option.map_some', Option.some.injEq] at h
        subst h
        rw [List.eraseP_cons_of_neg hp, ih (fun e he => hk e (by simp [he])) k2 hs]

/-- Removing the first entry that passes the test keeps the entries that fail it. -/
theorem filter_not_eraseP (k : kset) :
    (k.eraseP is_pin_entry).filter (fun d => !is_pin_entry d)
      = k.filter (fun d => !is_pin_entry d) := by
  induction k with
  | nil => rfl
  | cons d k ih =>
    by_cases hp : is_pin_entry d = true
    · rw [List.eraseP_cons_of_pos hp]
      simp [List.filter_cons, hp]
    · rw [List.eraseP_cons_of_neg hp]
      simp [List.filter_cons, hp, ih]

/-- On a registry whose pins are referenced by their entries only, the loop ends
with exactly the entries that fail the test. -/
theorem unexport_all_loop_rest (fuel : Nat) :
    ∀ k : kset, (∀ d ∈ k, d.kref = 1) → k.length < fuel →
      unexport_all_loop fuel k = some (k.filter (fun d => !is_pin_entry d)) := by
  induction fuel with
  | zero => intro k _ h; omega
  | succ fuel ih =>
    intro k hk hl
    cases hs : unexport_all_step k with
    | none =>
      have hall := (unexport_all_step_none k).mp hs
      have hf : k.filter (fun d => !is_pin_entry d) = k := by
        rw [List.filter_eq_self]
        intro a ha
        simp [hall a ha]
      simp [unexport_all_loop, hs, hf]
    | some k2 =>
      have he := unexport_all_step_rest k hk k2 hs
      have hex : ∃ d ∈ k, is_pin_entry d = true := by
        by_contra hc
        have : unexport_all_step k = none := by
          rw [unexport_all_step_none]
          intro d hd
          by_cases hp : is_pin_entry d = true
          · exact absurd ⟨d, hd, hp⟩ hc
          · simpa using hp
        rw [this] at hs
        exact absurd hs (by simp)
      obtain ⟨d, hd, hp⟩ := hex
      have hlen : k2.length = k.length - 1 := by
        rw [he]; exact List.length_eraseP_of_mem hd hp
      have hk2 : ∀ e ∈ k2, e.kref = 1 := by
        intro e hm
        rw [he] at hm
        exact hk e (List.mem_of_mem_eraseP hm)
      have hpos : 0 < k.length := List.length_pos_of_mem hd
      have := ih k2 hk2 (by omega)
      simp only [unexport_all_loop, hs]
      rw [this, he, filter_not_eraseP]

/-! ## The invariant of the registry -/

/-- In a registry that satisfies the invariant every entry passes the test of the
teardown scan. -/
theorem registry_inv_pins (k : kset) (h : registry_inv k) : ∀ d ∈ k, is_pin_entry d = true := by
  intro d hd
  have hn := h.2 d hd
  have hr := gpio_name_not_reserved d.gpio
  simp [is_pin_entry, hn, hr.1, hr.2]

/-- The teardown empties a registry that satisfies the invariant. -/
theorem unexport_all_inv (k : kset) (h : registry_inv k) : unexport_all k = some [] := by
  unfold unexport_all
  rw [unexport_all_loop_rest _ k h.1.2 (by have := length_le_kset_refs k; omega)]
  congr 1
  rw [List.filter_eq_nil_iff]
  intro d hd
  simp [registry_inv_pins k h d hd]

theorem registry_inv_nil : registry_inv [] := by
  simp [registry_inv, registry_ok]

theorem registry_inv_export (k : kset) (b : Bool) (gpio : Int) (h : registry_inv k) :
    registry_inv (vgpiod_export k b gpio).2 := by
  cases b with
  | false => exact h
  | true =>
    cases hf : find_pin k gpio with
    | some p => rw [vgpiod_export_present k gpio p hf]; exact h
    | none =>
      rw [vgpiod_export_absent k gpio hf]
      unfold find_pin at hf
      rw [List.find?_eq_none] at hf
      obtain ⟨⟨hnd, hkr⟩, hnm⟩ := h
      refine ⟨⟨?_, ?_⟩, ?_⟩
      · rw [List.map_append, List.nodup_append]
        refine ⟨hnd, by simp, ?_⟩
        intro a ha hb
        simp only [List.map_cons, List.map_nil, List.mem_singleton] at hb
        obtain ⟨d, hd, rfl⟩ := List.mem_map.mp ha
        exact hf d hd (by simpa [default_pin] using hb)
      · intro d hd
        rcases List.mem_append.mp hd with hd | hd
        · exact hkr d hd
        · rw [List.mem_singleton.mp hd]; rfl
      · intro d hd
        rcases List.mem_append.mp hd with hd | hd
        · exact hnm d hd
        · rw [List.mem_singleton.mp hd]; rfl

theorem registry_inv_unexport (k : kset) (gpio : Int) (h : registry_inv k) :
    registry_inv (vgpiod_unexport k gpio) := by
  rw [vgpiod_unexport_eq_eraseP k gpio h.1.2]
  obtain ⟨⟨hnd, hkr⟩, hnm⟩ := h
  refine ⟨⟨?_, ?_⟩, ?_⟩
  · exact List.Nodup.sublist ((List.eraseP_sublist k).map _) hnd
  · intro d hd; exact hkr d (List.mem_of_mem_eraseP hd)
  · intro d hd; exact hnm d (List.mem_of_mem_eraseP hd)

/-- Every call keeps the invariant of the registry. -/
theorem registry_inv_apply (k : kset) (op : registry_op) (h : registry_inv k) :
    registry_inv (apply_op k op) := by
  cases op with
  | vgpiod_export gpio b => exact registry_inv_export k b gpio h
  | vgpiod_unexport gpio => exact registry_inv_unexport k gpio h
  | unexport_all =>
    simp only [apply_op, unexport_all_inv k h, Option.getD_some]
    exact registry_inv_nil

/-- Every sequence of calls keeps the invariant of the registry. -/
theorem registry_inv_run (ops : List registry_op) (k : kset) (h : registry_inv k) :
    registry_inv (run_ops ops k) := by
  induction ops generalizing k with
  | nil => exact h
  | cons op ops ih =>
    simp only [run_ops, List.foldl_cons]
    exact ih _ (registry_inv_apply k op h)

/-- When a key is distinct on every entry, at most one entry carries a given key. -/
theorem filter_key_le_one {β : Type} [DecidableEq β] (f : vgpiod_data → β) (a : β) (k : kset)
    (h : (k.map f).Nodup) : (k.filter (fun d => decide (f d = a))).length ≤ 1 := by
  induction k with
  | nil => simp
  | cons d k ih =>
    rw [List.map_cons, List.nodup_cons] at h
    by_cases hd : f d = a
    · have he : k.filter (fun e => decide (f e = a)) = [] := by
        rw [List.filter_eq_nil_iff]
        intro e hm hc
        have hc2 : f e = a := by simpa using hc
        exact h.1 (by rw [hd, ← hc2]; exact List.mem_map_of_mem _ hm)
      simp [List.filter_cons, hd, he]
    · have := ih h.2
      simp [List.filter_cons, hd, this]

/-- C17: in every registry reached from the empty one by a sequence of export,
unexport and unexport_all calls, the names are pairwise distinct, every pin is
named after its number and referenced by its entry only, and each id has at most
one entry, by number and by name; the name `gpio<id>` determines the id and is never
`export` or `unexport`. -/
theorem registry_invariant (ops : List registry_op) :
    registry_inv (run_ops ops []) ∧
    ((run_ops ops []).map (fun d => d.gpio)).Nodup ∧
    (∀ id : Int,
      ((run_ops ops []).filter (fun d => decide (d.gpio = id))).length ≤ 1 ∧
      ((run_ops ops []).filter (fun d => decide (d.kobj_name = gpio_name id))).length ≤ 1) ∧
    (∀ i j : Int, gpio_name i = gpio_name j → i = j) ∧
    (∀ i : Int, gpio_name i ≠ lit "export" ∧ gpio_name i ≠ lit "unexport") := by
  have hinv := registry_inv_run ops [] registry_inv_nil
  have hnames : (run_ops ops []).map (fun d => d.kobj_name)
      = ((run_ops ops []).map (fun d => d.gpio)).map gpio_name := by
    rw [List.map_map]
    apply List.map_congr_left
    intro d hd
    exact hinv.2 d hd
  have hg : ((run_ops ops []).map (fun d => d.gpio)).Nodup := by
    have := hinv.1.1
    rw [hnames] at this
    exact List.Nodup.of_map _ this
  refine ⟨hinv, hg, ?_, gpio_name_inj, gpio_name_not_reserved⟩
  intro id
  exact ⟨filter_key_le_one (fun d => d.gpio) id _ hg,
    filter_key_le_one (fun d => d.kobj_name) (gpio_name id) _ hinv.1.1⟩

/-- C18: `unexport_all` reaches its `break` on every registry; when every pin is
referenced by its entry only, each iteration removes exactly one entry, the first
whose name is neither `export` nor `unexport`, and the loop ends with the entries
of those two names only; without such an entry the first iteration breaks and the
registry is unchanged; and on a registry that satisfies the invariant each
iteration has the effect of `vgpiod_unexport` on the first pin and the loop ends
with the empty registry. -/
theorem unexport_all_spec (k : kset) :
    (∃ k1 : kset, unexport_all k = some k1 ∧ unexport_all_step k1 = none) ∧
    ((∀ d ∈ k, d.kref = 1) →
      unexport_all k = some (k.filter (fun d => !is_pin_entry d)) ∧
      ∀ k1 : kset, unexport_all_step k = some k1 →
        k1 = k.eraseP is_pin_entry ∧ k1.length + 1 = k.length) ∧
    ((∀ d ∈ k, is_pin_entry d = false) →
      unexport_all_step k = none ∧ unexport_all_loop 1 k = some k ∧
      unexport_all k = some k) ∧
    (registry_inv k →
      unexport_all k = some [] ∧
      ∀ (d : vgpiod_data) (k1 : kset), k = d :: k1 →
        unexport_all_step k = some (vgpiod_unexport k d.gpio) ∧
        vgpiod_unexport k d.gpio = k1) := by
  refine ⟨?_, ?_, ?_, ?_⟩
  · exact unexport_all_loop_terminates _ k (by omega)
  · intro hk
    refine ⟨unexport_all_loop_rest _ k hk (by have := length_le_kset_refs k; omega), ?_⟩
    intro k1 hs
    have he := unexport_all_step_rest k hk k1 hs
    refine ⟨he, ?_⟩
    have hex : ∃ d ∈ k, is_pin_entry d = true := by
      by_contra hc
      have : unexport_all_step k = none := by
        rw [unexport_all_step_none]
        intro d hd
        by_cases hp : is_pin_entry d = true
        · exact absurd ⟨d, hd, hp⟩ hc
        · simpa using hp
      rw [this] at hs
      exact absurd hs (by simp)
    obtain ⟨d, hd, hp⟩ := hex
    have hpos : 0 < k.length := List.length_pos_of_mem hd
    rw [he, List.length_eraseP_of_mem hd hp]
    omega
  · intro hall
    have hs := (unexport_all_step_none k).mpr hall
    refine ⟨hs, by simp [unexport_all_loop, hs], ?_⟩
    obtain ⟨k1, h1, _⟩ := unexport_all_loop_terminates (kset_refs k + 1) k (by omega)
    unfold unexport_all
    simp [unexport_all_loop, hs]
  · intro hinv
    refine ⟨unexport_all_inv k hinv, ?_⟩
    intro d k1 hk
    subst hk
    have hp := registry_inv_pins _ hinv d (by simp)
    have hkr : d.kref = 1 := hinv.1.2 d (by simp)
    have hn : d.kobj_name = gpio_name d.gpio := hinv.2 d (by simp)
    rw [unexport_all_step_cons, if_pos hp, kobject_put_cons_zero,
      vgpiod_unexport_eq_eraseP _ _ hinv.1.2,
      List.eraseP_cons_of_pos (by simpa using hn)]
    simp [hkr]

/-- Witness of C18: the teardown of the scenario registry. -/
theorem unexport_all_spec_witness :
    registry_inv scenario7 ∧ unexport_all scenario7 = some [] :=
  ⟨⟨⟨by decide, by decide⟩, by decide⟩,
   ((unexport_all_spec scenario7).2.2.2 ⟨⟨by decide, by decide⟩, by decide⟩).1⟩

end Vgpio
